import Mathlib

/-!
# Loan-application chaincode (`start/basicgateway.go`)

A shallow embedding of the chaincode's operations and dispatcher, followed by
theorems about them.

Conventions of the embedding:

* Go `string` and `[]byte` are sequences of bytes and are both embedded as
  `String`, a byte being the character of that code (0 to 255), so ASCII text
  is embedded as itself and a string that is not valid UTF-8, such as
  `"\xff"`, is a value of the embedding; the conversions `[]byte(s)` and
  `string(b)` are the identity on the underlying sequence.
* A Go result `([]byte, error)` is an `Except String (Option Bytes)`: the error
  message on the left, the returned slice (`none` for `nil`) on the right.  A
  lone Go `error` is an `Option String` (`none` for `nil`).
* The stub is passed explicitly and returned with the result.
* `logger` calls have no effect on the stub and are left out.
-/

namespace BasicGateway

/-- Go `[]byte`. -/
abbrev Bytes := String

/-! ## Data model (lines 18-49) -/

structure PersonalInfo where
  Firstname : String
  Lastname : String
  DOB : String
  Email : String
  Mobile : String
  deriving DecidableEq

structure FinancialInfo where
  MonthlySalary : Int
  MonthlyRent : Int
  OtherExpenditure : Int
  MonthlyLoanPayment : Int
  deriving DecidableEq

structure LoanApplication where
  ID : String
  PropertyId : String
  LandId : String
  PermitId : String
  BuyerId : String
  AppraisalApplicationId : String
  SalesContractId : String
  PersonalInfo : PersonalInfo
  FinancialInfo : FinancialInfo
  Status : String
  RequestedAmount : Int
  FairMarketValue : Int
  ApprovedAmount : Int
  ReviewerId : String
  LastModifiedDate : String
  deriving DecidableEq

/-- Go zero value of `LoanApplication`, the content of
`var loanApplication LoanApplication`. -/
def LoanApplication.zero : LoanApplication where
  ID := ""
  PropertyId := ""
  LandId := ""
  PermitId := ""
  BuyerId := ""
  AppraisalApplicationId := ""
  SalesContractId := ""
  PersonalInfo := ⟨"", "", "", "", ""⟩
  FinancialInfo := ⟨0, 0, 0, 0⟩
  Status := ""
  RequestedAmount := 0
  FairMarketValue := 0
  ApprovedAmount := 0
  ReviewerId := ""
  LastModifiedDate := ""

/-! ## External collaborators

`shim.ChaincodeStubInterface` and `encoding/json` are libraries outside the
repository.  The stub is modelled from the contracts the specification gives
for the ledger accessor, the identity resolver and the event channel; the JSON
codec is a parameter of the operations that use it. -/

/-- One call made on the stub. -/
inductive StubCall where
  | GetState (key : String)
  | PutState (key : String) (value : Bytes)
  | SetEvent (name : String) (payload : Bytes)
  | ReadCertAttribute (attributeName : String)
  deriving DecidableEq

/-- Modelled from the spec: `shim.ChaincodeStubInterface` (the ledger
accessor, identity resolver and event channel of sections 2 and 6), which is
not among the sources.  `ledger` is the key-value state, `events` the events
handed to the event channel so far, `certAttributes` the caller's attributes,
`putFailure` and `eventFailure` say which puts and emissions the runtime
rejects and with which error, `notFound` is the error the accessor reports for
an absent key, and `calls` records every call made on the stub. -/
structure ChaincodeStub where
  ledger : String → Option Bytes
  events : List (String × Bytes)
  certAttributes : String → Except String Bytes
  putFailure : String → Bytes → Option String
  eventFailure : String → Bytes → Option String
  notFound : String → String
  calls : List StubCall

/-- Modelled from the spec: `stub.GetState`, `get(key) -> bytes, error`; a
key that is not found is surfaced as an error rather than an empty result
(section 4.1).  The ledger is not modified. -/
def ChaincodeStub.GetState (stub : ChaincodeStub) (key : String) :
    Except String Bytes × ChaincodeStub :=
  let stub1 := { stub with calls := stub.calls ++ [StubCall.GetState key] }
  match stub.ledger key with
  | some value => (Except.ok value, stub1)
  | none => (Except.error (stub.notFound key), stub1)

/-- Modelled from the spec: `stub.PutState`, `put(key, value) -> error`; a
single atomic put that either fails and writes nothing, or binds `key` to
`value` and leaves every other key as it was. -/
def ChaincodeStub.PutState (stub : ChaincodeStub) (key : String) (value : Bytes) :
    Option String × ChaincodeStub :=
  let stub1 := { stub with calls := stub.calls ++ [StubCall.PutState key value] }
  match stub.putFailure key value with
  | some err => (some err, stub1)
  | none =>
    (none, { stub1 with ledger := fun k => if k = key then some value else stub.ledger k })

/-- Modelled from the spec: `stub.SetEvent`,
`emit(channelName, payload) -> error`; on success the event is handed to the
event channel, on failure nothing is emitted. -/
def ChaincodeStub.SetEvent (stub : ChaincodeStub) (name : String) (payload : Bytes) :
    Option String × ChaincodeStub :=
  let stub1 := { stub with calls := stub.calls ++ [StubCall.SetEvent name payload] }
  match stub.eventFailure name payload with
  | some err => (some err, stub1)
  | none => (none, { stub1 with events := stub.events ++ [(name, payload)] })

/-- Modelled from the spec: `stub.ReadCertAttribute`,
`resolve(attributeName) -> (value, error)`, scoped to the caller. -/
def ChaincodeStub.ReadCertAttribute (stub : ChaincodeStub) (attributeName : String) :
    Except String Bytes × ChaincodeStub :=
  (stub.certAttributes attributeName,
    { stub with calls := stub.calls ++ [StubCall.ReadCertAttribute attributeName] })

/-- The two functions of `encoding/json` used on `LoanApplication`.
`Unmarshal data dst` returns the error (if any) together with the content of
the destination after the call, which Go may have filled in part. -/
structure JsonCodec where
  Marshal : LoanApplication → Except String Bytes
  Unmarshal : Bytes → LoanApplication → Option String × LoanApplication

/-- A codec that reads back what it wrote: decoding what `Marshal` produced
for a record gives that record back, without error.  `sampleCodec` below is
one; `encoding/json` is one on valid UTF-8 only (see `goJson`). -/
def JsonCodec.RoundTrips (json : JsonCodec) : Prop :=
  ∀ (v : LoanApplication) (data : Bytes) (dst : LoanApplication),
    json.Marshal v = Except.ok data → json.Unmarshal data dst = (none, v)

/-! ## Operations (lines 57-155) -/

/-- `GetLoanApplication` (lines 57-72). -/
def GetLoanApplication (stub : ChaincodeStub) (args : List String) :
    Except String (Option Bytes) × ChaincodeStub :=
  if h : args.length < 1 then
    (Except.error "Missing loan application ID", stub)
  else
    let loanApplicationId := args[0]
    match stub.GetState loanApplicationId with
    | (Except.error err, stub1) => (Except.error err, stub1)
    | (Except.ok bytes, stub1) => (Except.ok (some bytes), stub1)

/-- `CreateLoanApplication` (lines 74-99). -/
def CreateLoanApplication (stub : ChaincodeStub) (args : List String) :
    Except String (Option Bytes) × ChaincodeStub :=
  if h : args.length < 2 then
    (Except.error "Expected atleast two arguments for loan application creation", stub)
  else
    let loanApplicationId := args[0]
    let loanApplicationInput := args[1]
    match stub.PutState loanApplicationId loanApplicationInput with
    | (some err, stub1) => (Except.error err, stub1)
    | (none, stub1) =>
      let customEvent :=
        "\x7beventType: \x27loanApplicationCreation\x27, description:" ++ loanApplicationId
          ++ "\x27 Successfully created\x27\x7d"
      match stub1.SetEvent "evtSender" customEvent with
      | (some err, stub2) => (Except.error err, stub2)
      | (none, stub2) => (Except.ok none, stub2)

/-- `UpdateLoanApplication` (lines 104-144).  The error of `json.Unmarshal` is
assigned to `err` and overwritten by the next assignment without being
inspected. -/
def UpdateLoanApplication (json : JsonCodec) (stub : ChaincodeStub) (args : List String) :
    Except String (Option Bytes) × ChaincodeStub :=
  if h : args.length < 2 then
    (Except.error "Expected atleast two arguments for loan application update", stub)
  else
    let loanApplicationId := args[0]
    let status := args[1]
    match stub.GetState loanApplicationId with
    | (Except.error err, stub1) => (Except.error err, stub1)
    | (Except.ok laBytes, stub1) =>
      let loanApplication := (json.Unmarshal laBytes LoanApplication.zero).2
      let loanApplication := { loanApplication with Status := status }
      match json.Marshal loanApplication with
      | Except.error err => (Except.error err, stub1)
      | Except.ok laBytes =>
        match stub1.PutState loanApplicationId laBytes with
        | (some err, stub2) => (Except.error err, stub2)
        | (none, stub2) =>
          let customEvent :=
            "\x7beventType: \x27loanApplicationUpdate\x27, description:" ++ loanApplicationId
              ++ "\x27 Successfully updated status\x27\x7d"
          match stub2.SetEvent "evtSender" customEvent with
          | (some err, stub3) => (Except.error err, stub3)
          | (none, stub3) => (Except.ok none, stub3)

/-- `GetCertAttribute` (lines 147-155): the attribute as a string and a nil
error, or the empty string and an error. -/
def GetCertAttribute (stub : ChaincodeStub) (attributeName : String) :
    (String × Option String) × ChaincodeStub :=
  match stub.ReadCertAttribute attributeName with
  | (Except.error err, stub1) =>
    (("", some ("Couldn't get attribute " ++ attributeName ++ ". Error: " ++ err)), stub1)
  | (Except.ok attr, stub1) => ((attr, none), stub1)

/-! ## Dispatchers (lines 228-263) -/

/-- `BasicChaincode.Query` (lines 228-240). -/
def BasicChaincode.Query (stub : ChaincodeStub) (function : String) (args : List String) :
    Except String (Option Bytes) × ChaincodeStub :=
  if function = "GetLoanApplication" then
    GetLoanApplication stub args
  else
    (Except.ok none, stub)

/-- `BasicChaincode.Invoke` (lines 243-263).  The errors of both
`GetCertAttribute` calls are discarded. -/
def BasicChaincode.Invoke (stub : ChaincodeStub) (function : String) (args : List String) :
    Except String (Option Bytes) × ChaincodeStub :=
  if function = "CreateLoanApplication" then
    let r1 := GetCertAttribute stub "username"
    let username := r1.1.1
    let r2 := GetCertAttribute r1.2 "role"
    let role := r2.1.1
    if role = "Bank_Home_Loan_Admin" then
      CreateLoanApplication r2.2 args
    else
      (Except.error
        (username ++ " with role " ++ role ++ " does not have access to create a loan application"),
        r2.2)
  else
    (Except.ok none, stub)

/-! ## Shorthands used in the statements -/

/-- The payload built at line 91 for a created application. -/
def creationEvent (loanApplicationId : String) : Bytes :=
  "\x7beventType: \x27loanApplicationCreation\x27, description:" ++ loanApplicationId
    ++ "\x27 Successfully created\x27\x7d"

/-- The payload built at line 136 for an updated application. -/
def updateEvent (loanApplicationId : String) : Bytes :=
  "\x7beventType: \x27loanApplicationUpdate\x27, description:" ++ loanApplicationId
    ++ "\x27 Successfully updated status\x27\x7d"

/-- Go `strings.Contains s substr`, on the character sequences. -/
def containsSubstring (s substr : String) : Prop :=
  substr.data <:+: s.data

/-! ## A model of `encoding/json` on `LoanApplication`

The library is outside the repository.  `goJson` models the two functions
`UpdateLoanApplication` calls: `json.Marshal` on a `LoanApplication`, and
`json.Unmarshal` on the documents `json.Marshal` writes for one (the members of
the struct in declaration order, without insignificant white space); any other
input is reported as an error and leaves the destination as it was.  Go's `int`
is embedded as `Int`, and every integer literal is read back. -/

/-- A continuation byte of a UTF-8 sequence. -/
def isContinuation (b : Char) : Bool := 0x80 ≤ b.toNat && b.toNat ≤ 0xBF

def isTwoByte (b0 b1 : Char) : Bool :=
  0xC2 ≤ b0.toNat && b0.toNat ≤ 0xDF && isContinuation b1

def isThreeByte (b0 b1 b2 : Char) : Bool :=
  ((b0.toNat = 0xE0 && 0xA0 ≤ b1.toNat && b1.toNat ≤ 0xBF)
    || (0xE1 ≤ b0.toNat && b0.toNat ≤ 0xEC && isContinuation b1)
    || (b0.toNat = 0xED && 0x80 ≤ b1.toNat && b1.toNat ≤ 0x9F)
    || (0xEE ≤ b0.toNat && b0.toNat ≤ 0xEF && isContinuation b1))
  && isContinuation b2

def isFourByte (b0 b1 b2 b3 : Char) : Bool :=
  ((b0.toNat = 0xF0 && 0x90 ≤ b1.toNat && b1.toNat ≤ 0xBF)
    || (0xF1 ≤ b0.toNat && b0.toNat ≤ 0xF3 && isContinuation b1)
    || (b0.toNat = 0xF4 && 0x80 ≤ b1.toNat && b1.toNat ≤ 0x8F))
  && isContinuation b2 && isContinuation b3

/-- Go `utf8.DecodeRune` on bytes that do not start with an ASCII byte: the
well-formed multi-byte sequence at the head of the bytes and what follows it,
or `none` when the head is not the start of one (`RuneError` of width 1). -/
def utf8Split : List Char → Option (List Char × List Char)
  | b0 :: b1 :: t1 =>
    if isTwoByte b0 b1 then some ([b0, b1], t1)
    else
      match t1 with
      | b2 :: t2 =>
        if isThreeByte b0 b1 b2 then some ([b0, b1, b2], t2)
        else
          match t2 with
          | b3 :: t3 => if isFourByte b0 b1 b2 b3 then some ([b0, b1, b2, b3], t3) else none
          | [] => none
      | [] => none
  | _ => none

/-- U+FFFD in UTF-8. -/
def replacementRune : List Char := [Char.ofNat 0xEF, Char.ofNat 0xBF, Char.ofNat 0xBD]

/-- U+2028 in UTF-8. -/
def lineSeparator : List Char := [Char.ofNat 0xE2, Char.ofNat 0x80, Char.ofNat 0xA8]

/-- U+2029 in UTF-8. -/
def paragraphSeparator : List Char := [Char.ofNat 0xE2, Char.ofNat 0x80, Char.ofNat 0xA9]

/-- The bytes with every byte that is not part of a well-formed UTF-8
sequence replaced by U+FFFD; `fuel` bounds the number of steps and the length
of the bytes is enough. -/
def toValidUTF8 : Nat → List Char → List Char
  | 0, _ => []
  | _ + 1, [] => []
  | fuel + 1, b :: rest =>
    if b.toNat < 0x80 then b :: toValidUTF8 fuel rest
    else
      match utf8Split (b :: rest) with
      | some (seq, rest') => seq ++ toValidUTF8 fuel rest'
      | none => replacementRune ++ toValidUTF8 fuel rest

/-- Go `utf8.Valid`; `fuel` as in `toValidUTF8`. -/
def validUTF8 : Nat → List Char → Bool
  | 0, l => l.isEmpty
  | _ + 1, [] => true
  | fuel + 1, b :: rest =>
    if b.toNat < 0x80 then validUTF8 fuel rest
    else
      match utf8Split (b :: rest) with
      | some (_, rest') => validUTF8 fuel rest'
      | none => false

/-- Go `utf8.ValidString`. -/
def isValidUTF8 (s : String) : Bool := validUTF8 s.length s.data

/-- The string as `json.Marshal` followed by `json.Unmarshal` returns it. -/
def textToValidUTF8 (s : String) : String := String.mk (toValidUTF8 s.length s.data)

def hexDigit (n : Nat) : Char :=
  if n < 10 then Char.ofNat (48 + n) else Char.ofNat (87 + n)

def hexValue (c : Char) : Option Nat :=
  if 48 ≤ c.toNat ∧ c.toNat ≤ 57 then some (c.toNat - 48)
  else if 97 ≤ c.toNat ∧ c.toNat ≤ 102 then some (c.toNat - 87)
  else if 65 ≤ c.toNat ∧ c.toNat ≤ 70 then some (c.toNat - 55)
  else none

def hex4 (h1 h2 h3 h4 : Char) : Option Nat :=
  match hexValue h1, hexValue h2, hexValue h3, hexValue h4 with
  | some a, some b, some c, some d => some (((a * 16 + b) * 16 + c) * 16 + d)
  | _, _, _, _ => none

/-- Go `utf8.EncodeRune` on a code point that is not a surrogate. -/
def encodeRune (n : Nat) : List Char :=
  if n < 0x80 then [Char.ofNat n]
  else if n < 0x800 then [Char.ofNat (0xC0 + n / 64), Char.ofNat (0x80 + n % 64)]
  else if n < 0x10000 then
    [Char.ofNat (0xE0 + n / 4096), Char.ofNat (0x80 + n / 64 % 64), Char.ofNat (0x80 + n % 64)]
  else
    [Char.ofNat (0xF0 + n / 262144), Char.ofNat (0x80 + n / 4096 % 64),
      Char.ofNat (0x80 + n / 64 % 64), Char.ofNat (0x80 + n % 64)]

/-- What `json.Marshal` writes for an ASCII byte of a string: the quote and
the backslash escaped, `\n`, `\r`, `\t`, the other control characters and `<`,
`>`, `&` as `\u00XX`, every other byte as it is.  (Releases of Go differ in
which control characters get a short escape; the decoder reads all forms.) -/
def escapeByte (b : Char) : List Char :=
  if b = '"' ∨ b = '\\' then ['\\', b]
  else if b = '\n' then ['\\', 'n']
  else if b = '\r' then ['\\', 'r']
  else if b = '\t' then ['\\', 't']
  else if b.toNat < 0x20 ∨ b = '<' ∨ b = '>' ∨ b = '&' then
    ['\\', 'u', '0', '0', hexDigit (b.toNat / 16), hexDigit (b.toNat % 16)]
  else [b]

/-- What `json.Marshal` writes between the quotes for a Go string: ASCII
bytes through `escapeByte`, a byte that is not part of a well-formed UTF-8
sequence as the six characters of the escape of U+FFFD, the sequences of
U+2028 and U+2029 as their escapes, every other sequence as it is. -/
def quoteBody : Nat → List Char → List Char
  | 0, _ => []
  | _ + 1, [] => []
  | fuel + 1, b :: rest =>
    if b.toNat < 0x80 then escapeByte b ++ quoteBody fuel rest
    else
      match utf8Split (b :: rest) with
      | some (seq, rest') =>
        if seq = lineSeparator then ['\\', 'u', '2', '0', '2', '8'] ++ quoteBody fuel rest'
        else if seq = paragraphSeparator then
          ['\\', 'u', '2', '0', '2', '9'] ++ quoteBody fuel rest'
        else seq ++ quoteBody fuel rest'
      | none => ['\\', 'u', 'f', 'f', 'f', 'd'] ++ quoteBody fuel rest

def marshalString (s : String) : List Char :=
  '"' :: (quoteBody s.length s.data ++ ['"'])

def simpleEscape (e : Char) : Option Char :=
  if e = '"' then some '"'
  else if e = '\\' then some '\\'
  else if e = '/' then some '/'
  else if e = 'b' then some (Char.ofNat 8)
  else if e = 'f' then some (Char.ofNat 12)
  else if e = 'n' then some '\n'
  else if e = 'r' then some '\r'
  else if e = 't' then some '\t'
  else none

/-- The code point of the surrogate pair made of the high surrogate `n` and
the `\uXXXX` escape at the head of the input, when there is such a pair. -/
def lowSurrogate (n : Nat) (input : List Char) : Option (Nat × List Char) :=
  match input with
  | b :: u :: g1 :: g2 :: g3 :: g4 :: rest =>
    if n < 0xDC00 ∧ b = '\\' ∧ u = 'u' then
      match hex4 g1 g2 g3 g4 with
      | some m =>
        if 0xDC00 ≤ m ∧ m < 0xE000 then
          some (0x10000 + (n - 0xD800) * 0x400 + (m - 0xDC00), rest)
        else none
      | none => none
    else none
  | _ => none

/-- Reads a JSON string from after its opening quote, as `json.Unmarshal`
does: escapes are decoded, bytes that are not well-formed UTF-8 and unpaired
surrogates become U+FFFD, a raw control character is an error.  Returns the
bytes of the string and what follows the closing quote. -/
def unquoteBody : Nat → List Char → List Char → Option (List Char × List Char)
  | 0, _, _ => none
  | _ + 1, [], _ => none
  | fuel + 1, c :: rest, acc =>
    if c = '"' then some (acc, rest)
    else if c = '\\' then
      match rest with
      | [] => none
      | e :: rest1 =>
        if e = 'u' then
          match rest1 with
          | h1 :: h2 :: h3 :: h4 :: rest2 =>
            match hex4 h1 h2 h3 h4 with
            | none => none
            | some n =>
              if n < 0xD800 ∨ 0xE000 ≤ n then unquoteBody fuel rest2 (acc ++ encodeRune n)
              else
                match lowSurrogate n rest2 with
                | some (rune, rest3) => unquoteBody fuel rest3 (acc ++ encodeRune rune)
                | none => unquoteBody fuel rest2 (acc ++ replacementRune)
          | _ => none
        else
          match simpleEscape e with
          | some b => unquoteBody fuel rest1 (acc ++ [b])
          | none => none
    else if c.toNat < 0x20 then none
    else if c.toNat < 0x80 then unquoteBody fuel rest (acc ++ [c])
    else
      match utf8Split (c :: rest) with
      | some (seq, rest') => unquoteBody fuel rest' (acc ++ seq)
      | none => unquoteBody fuel rest (acc ++ replacementRune)

def parseString (input : List Char) : Option (String × List Char) :=
  match input with
  | [] => none
  | c :: rest =>
    if c = '"' then
      match unquoteBody rest.length rest [] with
      | some (value, rest') => some (String.mk value, rest')
      | none => none
    else none

def digitChar (d : Nat) : Char := Char.ofNat (48 + d)

/-- The decimal digits of `n` in front of `acc`; `fuel` above `n` is enough. -/
def natDigits : Nat → Nat → List Char → List Char
  | 0, _, acc => acc
  | fuel + 1, n, acc =>
    if n < 10 then digitChar n :: acc
    else natDigits fuel (n / 10) (digitChar (n % 10) :: acc)

/-- Go `strconv.FormatInt` in base 10, which `json.Marshal` uses for `int`. -/
def formatInt : Int → List Char
  | Int.ofNat n => natDigits (n + 1) n []
  | Int.negSucc n => '-' :: natDigits (n + 2) (n + 1) []

def isDecimalDigit (c : Char) : Bool := 48 ≤ c.toNat && c.toNat ≤ 57

def parseDigits : List Char → Nat → Nat × List Char
  | [], acc => (acc, [])
  | c :: rest, acc =>
    if isDecimalDigit c then parseDigits rest (acc * 10 + (c.toNat - 48)) else (acc, c :: rest)

/-- Reads an optional minus sign and decimal digits. -/
def parseInt (input : List Char) : Option (Int × List Char) :=
  match input with
  | [] => none
  | c :: rest =>
    if c = '-' then
      match rest with
      | [] => none
      | d :: _ =>
        if isDecimalDigit d then
          some (-((parseDigits rest 0).1 : Int), (parseDigits rest 0).2)
        else none
    else if isDecimalDigit c then
      some (((parseDigits (c :: rest) 0).1 : Int), (parseDigits (c :: rest) 0).2)
    else none

inductive FieldKind where
  | text
  | number

inductive FieldValue where
  | text (s : String)
  | number (z : Int)

def FieldValue.kind : FieldValue → FieldKind
  | FieldValue.text _ => FieldKind.text
  | FieldValue.number _ => FieldKind.number

def FieldValue.toValidUTF8 : FieldValue → FieldValue
  | FieldValue.text s => FieldValue.text (textToValidUTF8 s)
  | FieldValue.number z => FieldValue.number z

/-- The members `json.Marshal` writes for a `LoanApplication`, in the order
of the struct (lines 18-49), each with the text written before its value: the
separator, the `json` tag of the field and, for the first member of a nested
struct, the tag of that struct and its opening brace. -/
def fieldsOf (v : LoanApplication) : List (String × FieldValue) :=
  [("\x7b\"id\":", FieldValue.text v.ID),
   (",\"propertyId\":", FieldValue.text v.PropertyId),
   (",\"landId\":", FieldValue.text v.LandId),
   (",\"permitId\":", FieldValue.text v.PermitId),
   (",\"buyerId\":", FieldValue.text v.BuyerId),
   (",\"appraiserApplicationId\":", FieldValue.text v.AppraisalApplicationId),
   (",\"salesContractId\":", FieldValue.text v.SalesContractId),
   (",\"personalInfo\":\x7b\"firstname\":", FieldValue.text v.PersonalInfo.Firstname),
   (",\"lastname\":", FieldValue.text v.PersonalInfo.Lastname),
   (",\"DOB\":", FieldValue.text v.PersonalInfo.DOB),
   (",\"email\":", FieldValue.text v.PersonalInfo.Email),
   (",\"mobile\":", FieldValue.text v.PersonalInfo.Mobile),
   ("\x7d,\"financialInfo\":\x7b\"monthlySalary\":",
     FieldValue.number v.FinancialInfo.MonthlySalary),
   (",\"monthlyRent\":", FieldValue.number v.FinancialInfo.MonthlyRent),
   (",\"otherExpenditure\":", FieldValue.number v.FinancialInfo.OtherExpenditure),
   (",\"monthlyLoanPayment\":", FieldValue.number v.FinancialInfo.MonthlyLoanPayment),
   ("\x7d,\"status\":", FieldValue.text v.Status),
   (",\"requestedAmount\":", FieldValue.number v.RequestedAmount),
   (",\"fairMarketValue\":", FieldValue.number v.FairMarketValue),
   (",\"approvedAmount\":", FieldValue.number v.ApprovedAmount),
   (",\"reviewerId\":", FieldValue.text v.ReviewerId),
   (",\"lastModifiedDate\":", FieldValue.text v.LastModifiedDate)]

def marshalFields : List (String × FieldValue) → List Char
  | [] => []
  | (key, FieldValue.text s) :: fields => key.data ++ marshalString s ++ marshalFields fields
  | (key, FieldValue.number z) :: fields => key.data ++ formatInt z ++ marshalFields fields

/-- The document `json.Marshal` writes for a `LoanApplication`. -/
def marshalLoanApplication (v : LoanApplication) : List Char :=
  marshalFields (fieldsOf v) ++ ['\x7d']

/-- The input without the literal at its head, or `none`. -/
def dropLiteral : List Char → List Char → Option (List Char)
  | [], input => some input
  | _ :: _, [] => none
  | c :: cs, d :: ds => if c = d then dropLiteral cs ds else none

def parseFields : List (String × FieldKind) → List Char → Option (List FieldValue × List Char)
  | [], input => some ([], input)
  | (key, FieldKind.text) :: layout, input =>
    match dropLiteral key.data input with
    | none => none
    | some afterKey =>
      match parseString afterKey with
      | none => none
      | some (s, afterValue) =>
        match parseFields layout afterValue with
        | none => none
        | some (values, rest) => some (FieldValue.text s :: values, rest)
  | (key, FieldKind.number) :: layout, input =>
    match dropLiteral key.data input with
    | none => none
    | some afterKey =>
      match parseInt afterKey with
      | none => none
      | some (z, afterValue) =>
        match parseFields layout afterValue with
        | none => none
        | some (values, rest) => some (FieldValue.number z :: values, rest)

/-- The members of a serialized `LoanApplication` and their kinds. -/
def loanApplicationLayout : List (String × FieldKind) :=
  (fieldsOf LoanApplication.zero).map (fun field => (field.1, field.2.kind))

def textAt (values : List FieldValue) (i : Nat) : String :=
  match values.getD i (FieldValue.text "") with
  | FieldValue.text s => s
  | FieldValue.number _ => ""

def numberAt (values : List FieldValue) (i : Nat) : Int :=
  match values.getD i (FieldValue.number 0) with
  | FieldValue.text _ => 0
  | FieldValue.number z => z

def ofFields (values : List FieldValue) : LoanApplication where
  ID := textAt values 0
  PropertyId := textAt values 1
  LandId := textAt values 2
  PermitId := textAt values 3
  BuyerId := textAt values 4
  AppraisalApplicationId := textAt values 5
  SalesContractId := textAt values 6
  PersonalInfo :=
    ⟨textAt values 7, textAt values 8, textAt values 9, textAt values 10, textAt values 11⟩
  FinancialInfo :=
    ⟨numberAt values 12, numberAt values 13, numberAt values 14, numberAt values 15⟩
  Status := textAt values 16
  RequestedAmount := numberAt values 17
  FairMarketValue := numberAt values 18
  ApprovedAmount := numberAt values 19
  ReviewerId := textAt values 20
  LastModifiedDate := textAt values 21

/-- Reads a document written by `marshalLoanApplication`. -/
def parseLoanApplication (input : List Char) : Option LoanApplication :=
  match parseFields loanApplicationLayout input with
  | none => none
  | some (values, rest) => if rest = ['\x7d'] then some (ofFields values) else none

/-- The model of `encoding/json`: `Marshal` never fails on a
`LoanApplication`; `Unmarshal` fills every field from a document `Marshal`
wrote and otherwise returns an error without touching the destination. -/
def goJson : JsonCodec where
  Marshal := fun v => Except.ok (String.mk (marshalLoanApplication v))
  Unmarshal := fun data dst =>
    match parseLoanApplication data.data with
    | some v => (none, v)
    | none => (some "invalid character in a serialized loan application", dst)

/-- The record as `json.Marshal` followed by `json.Unmarshal` returns it. -/
def LoanApplication.toValidUTF8 (v : LoanApplication) : LoanApplication :=
  { v with
    ID := textToValidUTF8 v.ID
    PropertyId := textToValidUTF8 v.PropertyId
    LandId := textToValidUTF8 v.LandId
    PermitId := textToValidUTF8 v.PermitId
    BuyerId := textToValidUTF8 v.BuyerId
    AppraisalApplicationId := textToValidUTF8 v.AppraisalApplicationId
    SalesContractId := textToValidUTF8 v.SalesContractId
    PersonalInfo :=
      ⟨textToValidUTF8 v.PersonalInfo.Firstname, textToValidUTF8 v.PersonalInfo.Lastname,
        textToValidUTF8 v.PersonalInfo.DOB, textToValidUTF8 v.PersonalInfo.Email,
        textToValidUTF8 v.PersonalInfo.Mobile⟩
    Status := textToValidUTF8 v.Status
    ReviewerId := textToValidUTF8 v.ReviewerId
    LastModifiedDate := textToValidUTF8 v.LastModifiedDate }

/-- The string fields of a record other than `Status`. -/
def LoanApplication.textsOtherThanStatus (v : LoanApplication) : List String :=
  [v.ID, v.PropertyId, v.LandId, v.PermitId, v.BuyerId, v.AppraisalApplicationId,
    v.SalesContractId, v.PersonalInfo.Firstname, v.PersonalInfo.Lastname, v.PersonalInfo.DOB,
    v.PersonalInfo.Email, v.PersonalInfo.Mobile, v.ReviewerId, v.LastModifiedDate]

def startsWithoutDigit (l : List Char) : Prop :=
  ∃ c rest, l = c :: rest ∧ isDecimalDigit c = false

/-! ## A sample codec and sample stubs

`sampleCodec` is a small codec that meets `JsonCodec.RoundTrips`; it and the
stubs below are the concrete inputs at which the theorems are instantiated. -/

/-- Escapes the separator `;` and the escape character `%` of a field. -/
def escapeField : List Char → List Char
  | [] => []
  | c :: cs =>
    if c = '%' ∨ c = ';' then '%' :: c :: escapeField cs else c :: escapeField cs

/-- Writes the fields one after the other, each closed by `;`. -/
def frameFields : List (List Char) → List Char
  | [] => []
  | f :: fs => escapeField f ++ ';' :: frameFields fs

/-- Reads back the fields written by `frameFields`; `escaped` says that the
previous character was `%`, `acc` is the field read so far. -/
def unframeFields : List Char → Bool → List Char → Option (List (List Char))
  | [], escaped, acc => if escaped = false ∧ acc = [] then some [] else none
  | c :: rest, true, acc => unframeFields rest false (acc ++ [c])
  | c :: rest, false, acc =>
    if c = '%' then unframeFields rest true acc
    else if c = ';' then (unframeFields rest false []).map (fun fs => acc :: fs)
    else unframeFields rest false (acc ++ [c])

/-- A sign followed by the magnitude in unary. -/
def encodeInt : Int → List Char
  | Int.ofNat n => '+' :: List.replicate n '1'
  | Int.negSucc n => '-' :: List.replicate n '1'

def decodeInt : List Char → Option Int
  | [] => none
  | c :: rest =>
    if c = '+' then some (Int.ofNat rest.length)
    else if c = '-' then some (Int.negSucc rest.length)
    else none

def sampleEncode (v : LoanApplication) : Bytes :=
  String.mk (frameFields
    [v.ID.data, v.PropertyId.data, v.LandId.data, v.PermitId.data, v.BuyerId.data,
     v.AppraisalApplicationId.data, v.SalesContractId.data,
     v.PersonalInfo.Firstname.data, v.PersonalInfo.Lastname.data, v.PersonalInfo.DOB.data,
     v.PersonalInfo.Email.data, v.PersonalInfo.Mobile.data,
     encodeInt v.FinancialInfo.MonthlySalary, encodeInt v.FinancialInfo.MonthlyRent,
     encodeInt v.FinancialInfo.OtherExpenditure, encodeInt v.FinancialInfo.MonthlyLoanPayment,
     v.Status.data,
     encodeInt v.RequestedAmount, encodeInt v.FairMarketValue, encodeInt v.ApprovedAmount,
     v.ReviewerId.data, v.LastModifiedDate.data])

def sampleDecode (data : Bytes) : Option LoanApplication :=
  match unframeFields data.data false [] with
  | some [id, propertyId, landId, permitId, buyerId, appraisalId, salesContractId,
      firstname, lastname, dob, email, mobile, salary, rent, other, payment,
      status, requested, fairValue, approved, reviewerId, lastModified] =>
    match decodeInt salary, decodeInt rent, decodeInt other, decodeInt payment,
      decodeInt requested, decodeInt fairValue, decodeInt approved with
    | some salary, some rent, some other, some payment,
        some requested, some fairValue, some approved =>
      some
        { ID := String.mk id
          PropertyId := String.mk propertyId
          LandId := String.mk landId
          PermitId := String.mk permitId
          BuyerId := String.mk buyerId
          AppraisalApplicationId := String.mk appraisalId
          SalesContractId := String.mk salesContractId
          PersonalInfo :=
            ⟨String.mk firstname, String.mk lastname, String.mk dob, String.mk email,
              String.mk mobile⟩
          FinancialInfo := ⟨salary, rent, other, payment⟩
          Status := String.mk status
          RequestedAmount := requested
          FairMarketValue := fairValue
          ApprovedAmount := approved
          ReviewerId := String.mk reviewerId
          LastModifiedDate := String.mk lastModified }
    | _, _, _, _, _, _, _ => none
  | _ => none

/-- A codec whose `Marshal` never fails and whose `Unmarshal` leaves the
destination untouched when the input cannot be decoded. -/
def sampleCodec : JsonCodec where
  Marshal := fun v => Except.ok (sampleEncode v)
  Unmarshal := fun data dst =>
    match sampleDecode data with
    | some v => (none, v)
    | none => (some "cannot decode a loan application", dst)

/-- A stub with an empty ledger, no attribute and no failing call. -/
def emptyStub : ChaincodeStub where
  ledger := fun _ => none
  events := []
  certAttributes := fun a => Except.error ("no attribute " ++ a)
  putFailure := fun _ _ => none
  eventFailure := fun _ _ => none
  notFound := fun k => "no state for key " ++ k
  calls := []

/-- The stub of a caller with the given user name and role. -/
def callerStub (username role : String) : ChaincodeStub :=
  { emptyStub with
    certAttributes := fun a =>
      if a = "username" then Except.ok username
      else if a = "role" then Except.ok role
      else Except.error ("no attribute " ++ a) }

/-- A stub whose ledger holds `value` under `key` and nothing else. -/
def storedStub (key : String) (value : Bytes) : ChaincodeStub :=
  { emptyStub with ledger := fun k => if k = key then some value else none }

/-- A loan application in status `SUBMITTED`. -/
def sampleApplication : LoanApplication where
  ID := "LA-1"
  PropertyId := "P-7"
  LandId := "L-3"
  PermitId := "PM-2"
  BuyerId := "B-9"
  AppraisalApplicationId := "AA-4"
  SalesContractId := "SC-5"
  PersonalInfo := ⟨"Ada", "King", "1815-12-10", "ada@example.org", "555;0100"⟩
  FinancialInfo := ⟨9, 3, 2, 1⟩
  Status := "SUBMITTED"
  RequestedAmount := 12
  FairMarketValue := 15
  ApprovedAmount := 0
  ReviewerId := "R-1"
  LastModifiedDate := "2017-01-01"

/-! ## Lemmas on the stub and the codec -/

theorem unframeFields_escapeField (f rest acc : List Char) :
    unframeFields (escapeField f ++ ';' :: rest) false acc
      = (unframeFields rest false []).map (fun fs => (acc ++ f) :: fs) := by
  induction f generalizing acc with
  | nil => simp [escapeField, unframeFields]
  | cons c cs ih =>
    by_cases hc : c = '%' ∨ c = ';'
    · simp [escapeField, hc, unframeFields, ih]
    · have h1 : c ≠ '%' := fun h => hc (Or.inl h)
      have h2 : c ≠ ';' := fun h => hc (Or.inr h)
      simp [escapeField, hc, unframeFields, ih, h1, h2]

theorem decodeInt_encodeInt (n : Int) : decodeInt (encodeInt n) = some n := by
  cases n <;> simp [encodeInt, decodeInt]

theorem sampleDecode_sampleEncode (v : LoanApplication) :
    sampleDecode (sampleEncode v) = some v := by
  simp [sampleDecode, sampleEncode, frameFields, unframeFields_escapeField,
    unframeFields, decodeInt_encodeInt]

theorem sampleCodec_roundTrips : sampleCodec.RoundTrips := by
  intro v data dst h
  simp only [sampleCodec, Except.ok.injEq] at h
  subst h
  simp [sampleCodec, sampleDecode_sampleEncode]

theorem GetCertAttribute_stub (stub : ChaincodeStub) (attributeName : String) :
    (GetCertAttribute stub attributeName).2
      = { stub with calls := stub.calls ++ [StubCall.ReadCertAttribute attributeName] } := by
  unfold GetCertAttribute ChaincodeStub.ReadCertAttribute
  cases stub.certAttributes attributeName <;> rfl

theorem GetCertAttribute_value (stub : ChaincodeStub) (attributeName : String) :
    (GetCertAttribute stub attributeName).1.1
      = match stub.certAttributes attributeName with
        | Except.ok attr => attr
        | Except.error _ => "" := by
  unfold GetCertAttribute ChaincodeStub.ReadCertAttribute
  cases stub.certAttributes attributeName <;> rfl

/-- The role compared by `Invoke` is the role resolved on the stub it was
given: reading the user name first does not change the attributes. -/
theorem GetCertAttribute_role_after_username (stub : ChaincodeStub) :
    (GetCertAttribute (GetCertAttribute stub "username").2 "role").1.1
      = (GetCertAttribute stub "role").1.1 := by
  rw [GetCertAttribute_stub, GetCertAttribute_value, GetCertAttribute_value]

theorem Invoke_create_stub_before_gate (stub : ChaincodeStub) :
    (GetCertAttribute (GetCertAttribute stub "username").2 "role").2
      = { stub with
          calls := stub.calls ++
            [StubCall.ReadCertAttribute "username", StubCall.ReadCertAttribute "role"] } := by
  rw [GetCertAttribute_stub, GetCertAttribute_stub]
  simp

/-- What `Invoke` does for `CreateLoanApplication` when the resolved role is
not the administrator role. -/
theorem Invoke_create_not_admin (stub : ChaincodeStub) (args : List String)
    (hrole : (GetCertAttribute stub "role").1.1 ≠ "Bank_Home_Loan_Admin") :
    BasicChaincode.Invoke stub "CreateLoanApplication" args
      = (Except.error ((GetCertAttribute stub "username").1.1 ++ " with role "
            ++ (GetCertAttribute stub "role").1.1
            ++ " does not have access to create a loan application"),
          { stub with
            calls := stub.calls ++
              [StubCall.ReadCertAttribute "username", StubCall.ReadCertAttribute "role"] }) := by
  simp only [BasicChaincode.Invoke, if_true, GetCertAttribute_role_after_username,
    Invoke_create_stub_before_gate, if_neg hrole]

/-- What `Invoke` does for `CreateLoanApplication` when the resolved role is
the administrator role. -/
theorem Invoke_create_admin (stub : ChaincodeStub) (args : List String)
    (hrole : (GetCertAttribute stub "role").1.1 = "Bank_Home_Loan_Admin") :
    BasicChaincode.Invoke stub "CreateLoanApplication" args
      = CreateLoanApplication
          { stub with
            calls := stub.calls ++
              [StubCall.ReadCertAttribute "username", StubCall.ReadCertAttribute "role"] }
          args := by
  simp only [BasicChaincode.Invoke, if_true, GetCertAttribute_role_after_username,
    Invoke_create_stub_before_gate, if_pos hrole]

/-- Every function name other than `CreateLoanApplication` falls through to
the final `return nil, nil` of `Invoke`. -/
theorem Invoke_other (stub : ChaincodeStub) (function : String) (args : List String)
    (hfunction : function ≠ "CreateLoanApplication") :
    BasicChaincode.Invoke stub function args = (Except.ok none, stub) := by
  simp only [BasicChaincode.Invoke, if_neg hfunction]

theorem GetLoanApplication_cons (stub : ChaincodeStub) (id : String) (rest : List String) :
    GetLoanApplication stub (id :: rest)
      = match stub.ledger id with
        | some value =>
          (Except.ok (some value), { stub with calls := stub.calls ++ [StubCall.GetState id] })
        | none =>
          (Except.error (stub.notFound id),
            { stub with calls := stub.calls ++ [StubCall.GetState id] }) := by
  rcases h : stub.ledger id with _ | value <;>
    simp [GetLoanApplication, ChaincodeStub.GetState, h]

theorem CreateLoanApplication_cons (stub : ChaincodeStub) (id input : String)
    (rest : List String) :
    CreateLoanApplication stub (id :: input :: rest)
      = match stub.putFailure id input with
        | some err =>
          (Except.error err, { stub with calls := stub.calls ++ [StubCall.PutState id input] })
        | none =>
          match stub.eventFailure "evtSender" (creationEvent id) with
          | some err =>
            (Except.error err,
              { stub with
                ledger := fun k => if k = id then some input else stub.ledger k
                calls := stub.calls ++
                  [StubCall.PutState id input,
                    StubCall.SetEvent "evtSender" (creationEvent id)] })
          | none =>
            (Except.ok none,
              { stub with
                ledger := fun k => if k = id then some input else stub.ledger k
                events := stub.events ++ [("evtSender", creationEvent id)]
                calls := stub.calls ++
                  [StubCall.PutState id input,
                    StubCall.SetEvent "evtSender" (creationEvent id)] }) := by
  rcases hput : stub.putFailure id input with _ | err
  · rcases hevent : stub.eventFailure "evtSender" (creationEvent id) with _ | err <;>
      simp only [creationEvent] at hevent <;>
      simp [CreateLoanApplication, ChaincodeStub.PutState, ChaincodeStub.SetEvent, hput, hevent,
        creationEvent]
  · simp [CreateLoanApplication, ChaincodeStub.PutState, hput]

theorem UpdateLoanApplication_cons (json : JsonCodec) (stub : ChaincodeStub)
    (id status : String) (rest : List String) :
    UpdateLoanApplication json stub (id :: status :: rest)
      = match stub.ledger id with
        | none =>
          (Except.error (stub.notFound id),
            { stub with calls := stub.calls ++ [StubCall.GetState id] })
        | some laBytes =>
          match json.Marshal
              { (json.Unmarshal laBytes LoanApplication.zero).2 with Status := status } with
          | Except.error err =>
            (Except.error err, { stub with calls := stub.calls ++ [StubCall.GetState id] })
          | Except.ok out =>
            match stub.putFailure id out with
            | some err =>
              (Except.error err,
                { stub with
                  calls := stub.calls ++ [StubCall.GetState id, StubCall.PutState id out] })
            | none =>
              match stub.eventFailure "evtSender" (updateEvent id) with
              | some err =>
                (Except.error err,
                  { stub with
                    ledger := fun k => if k = id then some out else stub.ledger k
                    calls := stub.calls ++
                      [StubCall.GetState id, StubCall.PutState id out,
                        StubCall.SetEvent "evtSender" (updateEvent id)] })
              | none =>
                (Except.ok none,
                  { stub with
                    ledger := fun k => if k = id then some out else stub.ledger k
                    events := stub.events ++ [("evtSender", updateEvent id)]
                    calls := stub.calls ++
                      [StubCall.GetState id, StubCall.PutState id out,
                        StubCall.SetEvent "evtSender" (updateEvent id)] }) := by
  rcases hget : stub.ledger id with _ | laBytes
  · simp [UpdateLoanApplication, ChaincodeStub.GetState, hget]
  · rcases hmarshal : json.Marshal
        { (json.Unmarshal laBytes LoanApplication.zero).2 with Status := status } with err | out
    · simp [UpdateLoanApplication, ChaincodeStub.GetState, hget, hmarshal]
    · rcases hput : stub.putFailure id out with _ | err
      · rcases hevent : stub.eventFailure "evtSender" (updateEvent id) with _ | err <;>
          simp only [updateEvent] at hevent <;>
          simp [UpdateLoanApplication, ChaincodeStub.GetState, ChaincodeStub.PutState,
            ChaincodeStub.SetEvent, hget, hmarshal, hput, hevent, updateEvent]
      · simp [UpdateLoanApplication, ChaincodeStub.GetState, ChaincodeStub.PutState, hget,
          hmarshal, hput]

/-- With too few arguments the three operations return before any call on
the stub. -/
theorem GetLoanApplication_short (stub : ChaincodeStub) (args : List String)
    (h : args.length < 1) :
    GetLoanApplication stub args = (Except.error "Missing loan application ID", stub) := by
  simp [GetLoanApplication, h]

theorem CreateLoanApplication_short (stub : ChaincodeStub) (args : List String)
    (h : args.length < 2) :
    CreateLoanApplication stub args
      = (Except.error "Expected atleast two arguments for loan application creation", stub) := by
  simp [CreateLoanApplication, h]

theorem UpdateLoanApplication_short (json : JsonCodec) (stub : ChaincodeStub)
    (args : List String) (h : args.length < 2) :
    UpdateLoanApplication json stub args
      = (Except.error "Expected atleast two arguments for loan application update", stub) := by
  simp [UpdateLoanApplication, h]

/-- The error of `Unmarshal` has no influence on `UpdateLoanApplication`: when
the value under `id` is read, whatever `Unmarshal` reports, the content of the
destination with the new status is marshalled and, if neither the put nor the
emission fails, written under `id`. -/
theorem UpdateLoanApplication_unmarshal_error_ignored (json : JsonCodec) (stub : ChaincodeStub)
    (id status : String) (rest : List String) (data out : Bytes)
    (hstored : stub.ledger id = some data)
    (hmarshal : json.Marshal
      { (json.Unmarshal data LoanApplication.zero).2 with Status := status } = Except.ok out)
    (hput : stub.putFailure id out = none)
    (hevent : stub.eventFailure "evtSender" (updateEvent id) = none) :
    (UpdateLoanApplication json stub (id :: status :: rest)).1 = Except.ok none
      ∧ (UpdateLoanApplication json stub (id :: status :: rest)).2.ledger id = some out := by
  rw [UpdateLoanApplication_cons]
  simp [hstored, hmarshal, hput, hevent]

/-- A sequence found by `utf8Split` is the head of the bytes, and is found
again whatever follows it. -/
theorem utf8Split_eq (l seq t : List Char) (h : utf8Split l = some (seq, t)) :
    l = seq ++ t ∧ 2 ≤ seq.length ∧ ∀ t', utf8Split (seq ++ t') = some (seq, t') := by
  unfold utf8Split at h
  split at h
  · rename_i b0 b1 t1
    split at h
    · rename_i h2
      simp only [Option.some.injEq, Prod.mk.injEq] at h
      obtain ⟨rfl, rfl⟩ := h
      refine ⟨rfl, by simp, fun t' => ?_⟩
      simp [utf8Split, h2]
    · rename_i h2
      split at h
      · rename_i b2 t2
        split at h
        · rename_i h3
          simp only [Option.some.injEq, Prod.mk.injEq] at h
          obtain ⟨rfl, rfl⟩ := h
          refine ⟨rfl, by simp, fun t' => ?_⟩
          simp [utf8Split, h2, h3]
        · rename_i h3
          split at h
          · rename_i b3 t3
            split at h
            · rename_i h4
              simp only [Option.some.injEq, Prod.mk.injEq] at h
              obtain ⟨rfl, rfl⟩ := h
              refine ⟨rfl, by simp, fun t' => ?_⟩
              simp [utf8Split, h2, h3, h4]
            · simp at h
          · simp at h
      · simp at h
  · simp at h

theorem hexValue_hexDigit : ∀ n : Nat, n < 16 → hexValue (hexDigit n) = some n := by
  decide

theorem hex4_byte (n : Nat) (h : n < 256) :
    hex4 '0' '0' (hexDigit (n / 16)) (hexDigit (n % 16)) = some n := by
  have hd1 : hexValue (hexDigit (n / 16)) = some (n / 16) := hexValue_hexDigit _ (by omega)
  have hd2 : hexValue (hexDigit (n % 16)) = some (n % 16) := hexValue_hexDigit _ (by omega)
  have h0 : hexValue '0' = some 0 := by decide
  simp only [hex4, hd1, hd2, h0, Option.some.injEq]
  omega

theorem escapeByte_length_pos (b : Char) : 0 < (escapeByte b).length := by
  unfold escapeByte
  split_ifs <;> simp

theorem unquoteBody_escapeByte (fuel : Nat) (b : Char) (rest acc : List Char)
    (hb : b.toNat < 0x80) :
    unquoteBody (fuel + 1) (escapeByte b ++ rest) acc = unquoteBody fuel rest (acc ++ [b]) := by
  unfold escapeByte
  split_ifs with h1 h2 h3 h4 h5
  · rcases h1 with rfl | rfl <;> simp [unquoteBody, simpleEscape]
  · subst h2; simp [unquoteBody, simpleEscape]
  · subst h3; simp [unquoteBody, simpleEscape]
  · subst h4; simp [unquoteBody, simpleEscape]
  · have hx := hex4_byte b.toNat (by omega)
    have hlt : b.toNat < 0xD800 := by omega
    simp [unquoteBody, hx, hlt, encodeRune, hb, Char.ofNat_toNat]
  · push_neg at h1 h5
    have hq : b ≠ '"' := h1.1
    have hs : b ≠ '\\' := h1.2
    have hc : ¬ b.toNat < 0x20 := by omega
    simp [unquoteBody, hq, hs, hc, hb]

theorem unquoteBody_unicode (fuel : Nat) (h1 h2 h3 h4 : Char) (n : Nat) (tail acc : List Char)
    (hx : hex4 h1 h2 h3 h4 = some n) (hn : n < 0xD800 ∨ 0xE000 ≤ n) :
    unquoteBody (fuel + 1) ('\\' :: 'u' :: h1 :: h2 :: h3 :: h4 :: tail) acc
      = unquoteBody fuel tail (acc ++ encodeRune n) := by
  simp [unquoteBody, hx, hn]

theorem utf8Split_head (b : Char) (t seq rest' : List Char)
    (h : utf8Split (b :: t) = some (seq, rest')) :
    ∃ seq', seq = b :: seq' := by
  obtain ⟨heq, hlen, -⟩ := utf8Split_eq _ _ _ h
  cases seq with
  | nil => simp at hlen
  | cons c seq' =>
    simp only [List.cons_append, List.cons.injEq] at heq
    exact ⟨seq', by rw [heq.1]⟩

theorem unquoteBody_raw (fuel : Nat) (b : Char) (t seq rest' tail acc : List Char)
    (hb : ¬ b.toNat < 0x80) (h : utf8Split (b :: t) = some (seq, rest')) :
    unquoteBody (fuel + 1) (seq ++ tail) acc = unquoteBody fuel tail (acc ++ seq) := by
  obtain ⟨seq', rfl⟩ := utf8Split_head b t seq rest' h
  obtain ⟨-, -, hsplit⟩ := utf8Split_eq _ _ _ h
  have hq : b ≠ '"' := fun hq => hb (by subst hq; decide)
  have hs : b ≠ '\\' := fun hs => hb (by subst hs; decide)
  have hc : ¬ b.toNat < 0x20 := fun hc => hb (by omega)
  have h2 := hsplit tail
  simp only [List.cons_append] at h2 ⊢
  simp [unquoteBody, hq, hs, hc, hb, h2]

/-- Reading back what `quoteBody` wrote gives the bytes with the malformed
ones replaced by U+FFFD. -/
theorem unquoteBody_quoteBody (fuel : Nat) :
    ∀ (s rest acc : List Char) (fuel' : Nat), s.length ≤ fuel →
      (quoteBody fuel s).length < fuel' →
      unquoteBody fuel' (quoteBody fuel s ++ '"' :: rest) acc
        = some (acc ++ toValidUTF8 fuel s, rest) := by
  induction fuel with
  | zero =>
    intro s rest acc fuel' hs hfuel
    obtain ⟨f, rfl⟩ : ∃ f, fuel' = f + 1 := ⟨fuel' - 1, by omega⟩
    simp [quoteBody, toValidUTF8, unquoteBody]
  | succ fuel ih =>
    intro s rest acc fuel' hs hfuel
    obtain ⟨f, rfl⟩ : ∃ f, fuel' = f + 1 := ⟨fuel' - 1, by omega⟩
    cases s with
    | nil => simp [quoteBody, toValidUTF8, unquoteBody]
    | cons b t =>
      simp only [List.length_cons, Nat.add_le_add_iff_right] at hs
      by_cases hb : b.toNat < 0x80
      · have hpos := escapeByte_length_pos b
        simp only [quoteBody, hb, if_true, List.length_append] at hfuel
        simp only [quoteBody, toValidUTF8, hb, if_true, List.append_assoc]
        rw [unquoteBody_escapeByte _ _ _ _ hb, ih t rest _ f hs (by omega)]
        simp
      · rcases hsplit : utf8Split (b :: t) with _ | ⟨seq, rest'⟩
        · simp only [quoteBody, hb, if_false, hsplit, List.length_append] at hfuel
          simp only [quoteBody, toValidUTF8, hb, if_false, hsplit, List.append_assoc]
          have hx : hex4 'f' 'f' 'f' 'd' = some 0xFFFD := by decide
          have hr : encodeRune 0xFFFD = replacementRune := by decide
          simp only [List.cons_append, List.nil_append]
          rw [unquoteBody_unicode _ _ _ _ _ _ _ _ hx (by decide), hr,
            ih t rest _ f hs (by simp at hfuel; omega)]
          simp
        · obtain ⟨heq, hlen, -⟩ := utf8Split_eq _ _ _ hsplit
          have hrest : rest'.length ≤ fuel := by
            have := congrArg List.length heq
            simp only [List.length_cons, List.length_append] at this
            omega
          simp only [quoteBody, hb, if_false, hsplit] at hfuel
          simp only [quoteBody, toValidUTF8, hb, if_false, hsplit]
          by_cases hl : seq = lineSeparator
          · simp only [hl, if_true, List.length_append] at hfuel ⊢
            have hx : hex4 '2' '0' '2' '8' = some 0x2028 := by decide
            have hr : encodeRune 0x2028 = lineSeparator := by decide
            simp only [List.cons_append, List.nil_append, List.append_assoc]
            rw [unquoteBody_unicode _ _ _ _ _ _ _ _ hx (by decide), hr,
              ih rest' rest _ f hrest (by simp at hfuel; omega)]
            simp
          · by_cases hp : seq = paragraphSeparator
            · simp only [hl, hp, if_true, if_false, List.length_append] at hfuel ⊢
              have hl' : ¬ paragraphSeparator = lineSeparator := by decide
              simp only [hl', if_false] at hfuel ⊢
              have hx : hex4 '2' '0' '2' '9' = some 0x2029 := by decide
              have hr : encodeRune 0x2029 = paragraphSeparator := by decide
              simp only [List.cons_append, List.nil_append, List.append_assoc]
              rw [unquoteBody_unicode _ _ _ _ _ _ _ _ hx (by decide), hr,
                ih rest' rest _ f hrest (by simp at hfuel; omega)]
              simp
            · simp only [hl, hp, if_false, List.length_append] at hfuel ⊢
              rw [List.append_assoc, unquoteBody_raw _ b t seq rest' _ _ hb hsplit,
                ih rest' rest _ f hrest (by omega)]
              simp

theorem digitChar_spec : ∀ d : Nat, d < 10 →
    isDecimalDigit (digitChar d) = true ∧ (digitChar d).toNat - 48 = d ∧ digitChar d ≠ '-' := by
  decide

theorem natDigits_append (fuel : Nat) : ∀ (n : Nat) (acc tail : List Char),
    natDigits fuel n acc ++ tail = natDigits fuel n (acc ++ tail) := by
  induction fuel with
  | zero => intro n acc tail; rfl
  | succ fuel ih =>
    intro n acc tail
    unfold natDigits
    split_ifs
    · rfl
    · rw [ih]; rfl

theorem natDigits_head (fuel : Nat) : ∀ (n : Nat) (acc : List Char),
    ∃ d rest, natDigits (fuel + 1) n acc = d :: rest ∧ isDecimalDigit d = true ∧ d ≠ '-' := by
  induction fuel with
  | zero =>
    intro n acc
    unfold natDigits
    split_ifs with h
    · exact ⟨_, _, rfl, (digitChar_spec n h).1, (digitChar_spec n h).2.2⟩
    · exact ⟨_, _, rfl, (digitChar_spec _ (Nat.mod_lt _ (by decide))).1,
        (digitChar_spec _ (Nat.mod_lt _ (by decide))).2.2⟩
  | succ fuel ih =>
    intro n acc
    unfold natDigits
    split_ifs with h
    · exact ⟨_, _, rfl, (digitChar_spec n h).1, (digitChar_spec n h).2.2⟩
    · exact ih _ _

theorem parseDigits_natDigits (fuel : Nat) : ∀ (n : Nat) (acc : List Char) (a : Nat),
    n < fuel → ∃ k, parseDigits (natDigits fuel n acc) a = parseDigits acc (a * 10 ^ k + n) := by
  induction fuel with
  | zero => intro n acc a h; omega
  | succ fuel ih =>
    intro n acc a h
    unfold natDigits
    split_ifs with h10
    · refine ⟨1, ?_⟩
      obtain ⟨hd, hv, -⟩ := digitChar_spec n h10
      simp [parseDigits, hd, hv]
    · obtain ⟨k, hk⟩ := ih (n / 10) (digitChar (n % 10) :: acc) a (by omega)
      refine ⟨k + 1, ?_⟩
      obtain ⟨hd, hv, -⟩ := digitChar_spec (n % 10) (Nat.mod_lt _ (by decide))
      rw [hk]
      simp only [parseDigits, hd, hv, if_true]
      congr 1
      rw [pow_succ]
      have := Nat.div_add_mod n 10
      nlinarith [this]

theorem parseDigits_stop (c : Char) (tail : List Char) (a : Nat) (hc : isDecimalDigit c = false) :
    parseDigits (c :: tail) a = (a, c :: tail) := by
  simp [parseDigits, hc]

theorem parseNat_natDigits (n : Nat) (c : Char) (tail : List Char)
    (hc : isDecimalDigit c = false) :
    parseDigits (natDigits (n + 1) n [] ++ c :: tail) 0 = (n, c :: tail) := by
  rw [natDigits_append]
  obtain ⟨k, hk⟩ := parseDigits_natDigits (n + 1) n ([] ++ c :: tail) 0 (by omega)
  rw [hk]
  simp [parseDigits_stop c tail _ hc]

/-- Reading back what `formatInt` wrote gives the integer. -/
theorem parseInt_formatInt (z : Int) (c : Char) (tail : List Char)
    (hc : isDecimalDigit c = false) :
    parseInt (formatInt z ++ c :: tail) = some (z, c :: tail) := by
  cases z with
  | ofNat n =>
    have hp := parseNat_natDigits n c tail hc
    obtain ⟨d, rest, hd, hdig, hneg⟩ := natDigits_head n n ([] ++ c :: tail)
    simp only [formatInt]
    rw [natDigits_append] at hp ⊢
    rw [hd] at hp ⊢
    simp [parseInt, hneg, hdig, hp]
  | negSucc n =>
    have hp := parseNat_natDigits (n + 1) c tail hc
    obtain ⟨d, rest, hd, hdig, hneg⟩ := natDigits_head (n + 1) (n + 1) ([] ++ c :: tail)
    simp only [formatInt, List.cons_append]
    rw [natDigits_append] at hp ⊢
    rw [hd] at hp ⊢
    simp [parseInt, hdig, hp, Int.negSucc_eq]

theorem dropLiteral_append (p tail : List Char) : dropLiteral p (p ++ tail) = some tail := by
  induction p with
  | nil => rfl
  | cons c cs ih => simp [dropLiteral, ih]

theorem parseString_marshalString (s : String) (tail : List Char) :
    parseString (marshalString s ++ tail) = some (textToValidUTF8 s, tail) := by
  have h := unquoteBody_quoteBody s.length s.data tail []
    (quoteBody s.length s.data ++ '"' :: tail).length (le_refl _) (by simp)
  simp only [marshalString, List.cons_append, List.append_assoc, List.nil_append, parseString,
    if_true, h, textToValidUTF8]

theorem marshalFields_startsWithoutDigit (fields : List (String × FieldValue))
    (tail : List Char)
    (hkeys : ∀ field ∈ fields, startsWithoutDigit field.1.data)
    (htail : startsWithoutDigit tail) :
    startsWithoutDigit (marshalFields fields ++ tail) := by
  cases fields with
  | nil => simpa [marshalFields] using htail
  | cons field fields =>
    obtain ⟨key, value⟩ := field
    obtain ⟨c, rest, hc, hd⟩ := hkeys (key, value) (by simp)
    simp only at hc
    cases value <;>
      exact ⟨c, _, by simp only [marshalFields, hc, List.cons_append, List.append_assoc]; rfl, hd⟩

theorem FieldValue.kind_text (s : String) : (FieldValue.text s).kind = FieldKind.text := rfl

theorem FieldValue.kind_number (z : Int) : (FieldValue.number z).kind = FieldKind.number := rfl

theorem FieldValue.toValidUTF8_text (s : String) :
    (FieldValue.text s).toValidUTF8 = FieldValue.text (textToValidUTF8 s) := rfl

theorem FieldValue.toValidUTF8_number (z : Int) :
    (FieldValue.number z).toValidUTF8 = FieldValue.number z := rfl

theorem parseFields_marshalFields (fields : List (String × FieldValue)) :
    ∀ (tail : List Char), (∀ field ∈ fields, startsWithoutDigit field.1.data) →
      startsWithoutDigit tail →
      parseFields (fields.map (fun field => (field.1, field.2.kind))) (marshalFields fields ++ tail)
        = some (fields.map (fun field => field.2.toValidUTF8), tail) := by
  induction fields with
  | nil => intro tail _ _; simp [parseFields, marshalFields]
  | cons field fields ih =>
    intro tail hkeys htail
    obtain ⟨key, value⟩ := field
    have hrest : ∀ f ∈ fields, startsWithoutDigit f.1.data :=
      fun f hf => hkeys f (List.mem_cons_of_mem _ hf)
    cases value with
    | text s =>
      simp only [List.map_cons, FieldValue.kind_text, parseFields, marshalFields,
        List.append_assoc, dropLiteral_append, parseString_marshalString, ih tail hrest htail,
        FieldValue.toValidUTF8_text]
    | number z =>
      obtain ⟨c, rest, hc, hd⟩ := marshalFields_startsWithoutDigit fields tail hrest htail
      simp only [List.map_cons, FieldValue.kind_number, parseFields, marshalFields,
        List.append_assoc, dropLiteral_append]
      rw [hc, parseInt_formatInt z c rest hd, ← hc]
      simp only [ih tail hrest htail, FieldValue.toValidUTF8_number]

/-- Valid UTF-8 is left as it is. -/
theorem validUTF8_toValidUTF8 (fuel : Nat) : ∀ s : List Char,
    validUTF8 fuel s = true → toValidUTF8 fuel s = s := by
  induction fuel with
  | zero =>
    intro s h
    cases s with
    | nil => rfl
    | cons b t => simp [validUTF8] at h
  | succ fuel ih =>
    intro s h
    cases s with
    | nil => rfl
    | cons b t =>
      by_cases hb : b.toNat < 0x80
      · simp only [validUTF8, hb, if_true] at h
        simp only [toValidUTF8, hb, if_true, ih t h]
      · rcases hsplit : utf8Split (b :: t) with _ | ⟨seq, rest'⟩
        · simp [validUTF8, hb, hsplit] at h
        · simp only [validUTF8, hb, if_false, hsplit] at h
          obtain ⟨heq, -, -⟩ := utf8Split_eq _ _ _ hsplit
          simp only [toValidUTF8, hb, if_false, hsplit, ih rest' h]
          exact heq.symm

theorem textToValidUTF8_of_valid (s : String) (h : isValidUTF8 s = true) :
    textToValidUTF8 s = s := by
  unfold textToValidUTF8
  rw [validUTF8_toValidUTF8 _ _ h]

theorem fieldsOf_layout (v : LoanApplication) :
    (fieldsOf v).map (fun field => (field.1, field.2.kind)) = loanApplicationLayout := rfl

theorem fieldsOf_keys (v : LoanApplication) :
    ∀ field ∈ fieldsOf v, startsWithoutDigit field.1.data := by
  intro field hfield
  simp only [fieldsOf, List.mem_cons, List.mem_singleton, List.not_mem_nil, or_false] at hfield
  rcases hfield with h | h | h | h | h | h | h | h | h | h | h | h | h | h | h | h | h | h | h
    | h | h | h <;> subst h <;> exact ⟨_, _, rfl, by decide⟩

/-- Reading back the document written for a record gives the record with
its strings made valid UTF-8. -/
theorem parseLoanApplication_marshalLoanApplication (v : LoanApplication) :
    parseLoanApplication (marshalLoanApplication v) = some v.toValidUTF8 := by
  have h := parseFields_marshalFields (fieldsOf v) ['\x7d'] (fieldsOf_keys v)
    ⟨_, _, rfl, by decide⟩
  rw [fieldsOf_layout] at h
  simp only [parseLoanApplication, marshalLoanApplication, h, if_true]
  rfl

theorem goJson_reads_back (v dst : LoanApplication) :
    goJson.Unmarshal (String.mk (marshalLoanApplication v)) dst = (none, v.toValidUTF8) := by
  simp only [goJson, parseLoanApplication_marshalLoanApplication]

/-- What a successful `UpdateLoanApplication` leaves under `id`: the
serialization of the record read from the stored value, with the new status. -/
theorem UpdateLoanApplication_stored (json : JsonCodec) (stub : ChaincodeStub)
    (id status : String) (rest : List String) (data : Bytes)
    (hstored : stub.ledger id = some data)
    (hok : (UpdateLoanApplication json stub (id :: status :: rest)).1 = Except.ok none) :
    ∃ out : Bytes,
      json.Marshal { (json.Unmarshal data LoanApplication.zero).2 with Status := status }
          = Except.ok out
        ∧ (UpdateLoanApplication json stub (id :: status :: rest)).2.ledger id = some out := by
  rw [UpdateLoanApplication_cons] at hok ⊢
  simp only [hstored] at hok ⊢
  rcases hmarshal : json.Marshal
      { (json.Unmarshal data LoanApplication.zero).2 with Status := status } with err | out
  · simp [hmarshal] at hok
  · simp only [hmarshal] at hok ⊢
    rcases hput : stub.putFailure id out with _ | err
    · simp only [hput] at hok ⊢
      rcases hevent : stub.eventFailure "evtSender" (updateEvent id) with _ | err
      · exact ⟨out, rfl, by simp⟩
      · simp [hevent] at hok
    · simp [hput] at hok

/-- With `goJson`, a stored serialization of `r` becomes, after a successful
update, the serialization of `r` made valid UTF-8 with the new status. -/
theorem UpdateLoanApplication_goJson_stored (stub : ChaincodeStub) (id status : String)
    (rest : List String) (r : LoanApplication)
    (hstored : stub.ledger id = some (String.mk (marshalLoanApplication r)))
    (hok : (UpdateLoanApplication goJson stub (id :: status :: rest)).1 = Except.ok none) :
    (UpdateLoanApplication goJson stub (id :: status :: rest)).2.ledger id
        = some (String.mk (marshalLoanApplication { r.toValidUTF8 with Status := status }))
      ∧ ∀ dst : LoanApplication,
        goJson.Unmarshal
            (String.mk (marshalLoanApplication { r.toValidUTF8 with Status := status })) dst
          = (none, LoanApplication.toValidUTF8 { r.toValidUTF8 with Status := status }) := by
  obtain ⟨out, hout, hledger⟩ :=
    UpdateLoanApplication_stored goJson stub id status rest _ hstored hok
  rw [goJson_reads_back] at hout
  have hout' : out = String.mk (marshalLoanApplication { r.toValidUTF8 with Status := status }) :=
    (Except.ok.inj hout).symm
  subst hout'
  exact ⟨hledger, fun dst => goJson_reads_back _ dst⟩

/-! ## The claims -/

/-- C1: for every stub, every argument list and every caller whose role
attribute resolves to a value other than `Bank_Home_Loan_Admin` (the empty
string when it does not resolve), `Invoke` with `CreateLoanApplication` returns
the access-denied error and leaves the ledger and the events as they were; the
only calls made on the stub are the two attribute reads. -/
theorem Invoke_create_denied (stub : ChaincodeStub) (args : List String)
    (hrole : (GetCertAttribute stub "role").1.1 ≠ "Bank_Home_Loan_Admin") :
    (BasicChaincode.Invoke stub "CreateLoanApplication" args).1
        = Except.error ((GetCertAttribute stub "username").1.1 ++ " with role "
            ++ (GetCertAttribute stub "role").1.1
            ++ " does not have access to create a loan application")
      ∧ (BasicChaincode.Invoke stub "CreateLoanApplication" args).2.ledger = stub.ledger
      ∧ (BasicChaincode.Invoke stub "CreateLoanApplication" args).2.events = stub.events
      ∧ (BasicChaincode.Invoke stub "CreateLoanApplication" args).2.calls
          = stub.calls ++
            [StubCall.ReadCertAttribute "username", StubCall.ReadCertAttribute "role"] := by
  rw [Invoke_create_not_admin stub args hrole]
  exact ⟨rfl, rfl, rfl, rfl⟩

/-- C1 at a caller without any attribute: the role does not resolve, the
creation of `LA-1` is denied and nothing is written. -/
theorem Invoke_create_denied_witness :
    (GetCertAttribute emptyStub "role").1.1 ≠ "Bank_Home_Loan_Admin"
      ∧ (BasicChaincode.Invoke emptyStub "CreateLoanApplication" ["LA-1", "x"]).1
          = Except.error " with role  does not have access to create a loan application"
      ∧ (BasicChaincode.Invoke emptyStub "CreateLoanApplication" ["LA-1", "x"]).2.ledger
          = emptyStub.ledger
      ∧ (BasicChaincode.Invoke emptyStub "CreateLoanApplication" ["LA-1", "x"]).2.events = []
      ∧ (BasicChaincode.Invoke emptyStub "CreateLoanApplication" ["LA-1", "x"]).2.calls
          = [StubCall.ReadCertAttribute "username", StubCall.ReadCertAttribute "role"] :=
  ⟨by decide, Invoke_create_denied emptyStub ["LA-1", "x"] (by decide)⟩

/-- C2: when a caller whose role resolves to `Bank_Home_Loan_Admin` invokes
`CreateLoanApplication` with `id` and `record` and the invocation succeeds, a
later `Query` of `GetLoanApplication` for `id`, made on any stub that sees the
value the invocation left under `id`, succeeds and returns exactly `record`. -/
theorem create_then_get (stub later : ChaincodeStub) (id record : String) (rest : List String)
    (hrole : (GetCertAttribute stub "role").1.1 = "Bank_Home_Loan_Admin")
    (hok : (BasicChaincode.Invoke stub "CreateLoanApplication" (id :: record :: rest)).1
      = Except.ok none)
    (hlater : later.ledger id
      = (BasicChaincode.Invoke stub "CreateLoanApplication" (id :: record :: rest)).2.ledger id) :
    (BasicChaincode.Query later "GetLoanApplication" [id]).1 = Except.ok (some record) := by
  rw [Invoke_create_admin stub _ hrole, CreateLoanApplication_cons] at hok hlater
  have hstored : later.ledger id = some record := by
    rw [hlater]
    split at hok
    · simp at hok
    · split at hok
      · simp at hok
      · simp
  simp [BasicChaincode.Query, GetLoanApplication_cons, hstored]

/-- C2 at the administrator `carol` creating `LA-1`: the query on the stub
the invocation returned gives the payload back. -/
theorem create_then_get_witness :
    (GetCertAttribute (callerStub "carol" "Bank_Home_Loan_Admin") "role").1.1
        = "Bank_Home_Loan_Admin"
      ∧ (BasicChaincode.Invoke (callerStub "carol" "Bank_Home_Loan_Admin")
          "CreateLoanApplication" ["LA-1", "\x7b\"id\":\"LA-1\",\"status\":\"SUBMITTED\"\x7d"]).1
        = Except.ok none
      ∧ (BasicChaincode.Query
          (BasicChaincode.Invoke (callerStub "carol" "Bank_Home_Loan_Admin")
            "CreateLoanApplication"
            ["LA-1", "\x7b\"id\":\"LA-1\",\"status\":\"SUBMITTED\"\x7d"]).2
          "GetLoanApplication" ["LA-1"]).1
        = Except.ok (some "\x7b\"id\":\"LA-1\",\"status\":\"SUBMITTED\"\x7d") :=
  ⟨rfl, rfl,
    create_then_get (callerStub "carol" "Bank_Home_Loan_Admin")
      (BasicChaincode.Invoke (callerStub "carol" "Bank_Home_Loan_Admin")
        "CreateLoanApplication" ["LA-1", "\x7b\"id\":\"LA-1\",\"status\":\"SUBMITTED\"\x7d"]).2
      "LA-1" "\x7b\"id\":\"LA-1\",\"status\":\"SUBMITTED\"\x7d" [] rfl rfl rfl⟩

/-- C4: when no value is stored under `id`, `UpdateLoanApplication` fails
with the error of the ledger read and writes nothing: the ledger and the
events are as before, `id` is still absent, and the read is the only call made
on the stub. -/
theorem update_absent_fails (json : JsonCodec) (stub : ChaincodeStub) (id status : String)
    (rest : List String) (habsent : stub.ledger id = none) :
    (stub.GetState id).1 = Except.error (stub.notFound id)
      ∧ (UpdateLoanApplication json stub (id :: status :: rest)).1
          = Except.error (stub.notFound id)
      ∧ (UpdateLoanApplication json stub (id :: status :: rest)).2.ledger = stub.ledger
      ∧ (UpdateLoanApplication json stub (id :: status :: rest)).2.ledger id = none
      ∧ (UpdateLoanApplication json stub (id :: status :: rest)).2.events = stub.events
      ∧ (UpdateLoanApplication json stub (id :: status :: rest)).2.calls
          = stub.calls ++ [StubCall.GetState id] := by
  rw [UpdateLoanApplication_cons]
  simp [ChaincodeStub.GetState, habsent]

/-- C4 at the empty ledger and the key `LA-999`. -/
theorem update_absent_fails_witness :
    emptyStub.ledger "LA-999" = none
      ∧ (UpdateLoanApplication sampleCodec emptyStub ["LA-999", "APPROVED"]).1
          = Except.error "no state for key LA-999"
      ∧ (UpdateLoanApplication sampleCodec emptyStub ["LA-999", "APPROVED"]).2.ledger "LA-999"
          = none
      ∧ (UpdateLoanApplication sampleCodec emptyStub ["LA-999", "APPROVED"]).2.calls
          = [StubCall.GetState "LA-999"] :=
  ⟨rfl,
    (update_absent_fails sampleCodec emptyStub "LA-999" "APPROVED" [] rfl).2.1,
    (update_absent_fails sampleCodec emptyStub "LA-999" "APPROVED" [] rfl).2.2.2.1,
    (update_absent_fails sampleCodec emptyStub "LA-999" "APPROVED" [] rfl).2.2.2.2.2⟩

/-- C5: an argument list shorter than the operation requires (fewer than one
argument for `GetLoanApplication`, fewer than two for `CreateLoanApplication`
and `UpdateLoanApplication`) is rejected with the operation's argument-count
error, and the stub returned is the stub given: no call was made on it, so
ledger, events and call record are unchanged. -/
theorem short_arguments_rejected (json : JsonCodec) (stub : ChaincodeStub)
    (getArgs createArgs updateArgs : List String)
    (hget : getArgs.length < 1) (hcreate : createArgs.length < 2)
    (hupdate : updateArgs.length < 2) :
    GetLoanApplication stub getArgs = (Except.error "Missing loan application ID", stub)
      ∧ CreateLoanApplication stub createArgs
          = (Except.error "Expected atleast two arguments for loan application creation", stub)
      ∧ UpdateLoanApplication json stub updateArgs
          = (Except.error "Expected atleast two arguments for loan application update", stub) :=
  ⟨GetLoanApplication_short stub getArgs hget,
    CreateLoanApplication_short stub createArgs hcreate,
    UpdateLoanApplication_short json stub updateArgs hupdate⟩

/-- C5 at no argument for the read and the single argument `LA-1` for the
creation and the update, on a ledger that holds `LA-1`. -/
theorem short_arguments_rejected_witness :
    ([] : List String).length < 1 ∧ ["LA-1"].length < 2
      ∧ GetLoanApplication (storedStub "LA-1" "x") []
          = (Except.error "Missing loan application ID", storedStub "LA-1" "x")
      ∧ CreateLoanApplication (storedStub "LA-1" "x") ["LA-1"]
          = (Except.error "Expected atleast two arguments for loan application creation",
              storedStub "LA-1" "x")
      ∧ UpdateLoanApplication sampleCodec (storedStub "LA-1" "x") ["LA-1"]
          = (Except.error "Expected atleast two arguments for loan application update",
              storedStub "LA-1" "x") :=
  ⟨by decide, by decide,
    short_arguments_rejected sampleCodec (storedStub "LA-1" "x") [] ["LA-1"] ["LA-1"]
      (by decide) (by decide) (by decide)⟩

/-- C8: for a caller whose user name resolves to `u` and whose role resolves
to `r`, with `r` other than `Bank_Home_Loan_Admin`, the error returned by
`Invoke` for `CreateLoanApplication` is exactly
`u ++ " with role " ++ r ++ " does not have access to create a loan application"`,
which contains both `u` and `r`. -/
theorem denial_message_names_user_and_role (stub : ChaincodeStub) (args : List String)
    (u r : String)
    (hu : (GetCertAttribute stub "username").1.1 = u)
    (hr : (GetCertAttribute stub "role").1.1 = r)
    (hne : r ≠ "Bank_Home_Loan_Admin") :
    ∃ msg : String,
      (BasicChaincode.Invoke stub "CreateLoanApplication" args).1 = Except.error msg
        ∧ msg = u ++ " with role " ++ r ++ " does not have access to create a loan application"
        ∧ containsSubstring msg u ∧ containsSubstring msg r := by
  subst hu hr
  refine ⟨_, ?_, rfl, ?_, ?_⟩
  · rw [Invoke_create_not_admin stub args hne]
  · exact ⟨[], (" with role " ++ (GetCertAttribute stub "role").1.1
        ++ " does not have access to create a loan application").data,
      by simp only [String.data_append, List.nil_append, List.append_assoc]⟩
  · exact ⟨((GetCertAttribute stub "username").1.1 ++ " with role ").data,
      (" does not have access to create a loan application" : String).data,
      by simp only [String.data_append]⟩

/-- C8 at the caller `alice` with role `Applicant`. -/
theorem denial_message_names_user_and_role_witness :
    (GetCertAttribute (callerStub "alice" "Applicant") "username").1.1 = "alice"
      ∧ (GetCertAttribute (callerStub "alice" "Applicant") "role").1.1 = "Applicant"
      ∧ "Applicant" ≠ "Bank_Home_Loan_Admin"
      ∧ ∃ msg : String,
        (BasicChaincode.Invoke (callerStub "alice" "Applicant") "CreateLoanApplication"
            ["LA-1", "x"]).1 = Except.error msg
          ∧ msg = "alice with role Applicant does not have access to create a loan application"
          ∧ containsSubstring msg "alice" ∧ containsSubstring msg "Applicant" :=
  ⟨rfl, rfl, by decide,
    denial_message_names_user_and_role (callerStub "alice" "Applicant") ["LA-1", "x"]
      "alice" "Applicant" rfl rfl (by decide)⟩

/-- C3, amended: when `id` holds the serialization of a record `r` whose
string fields other than `Status` are valid UTF-8, and the status `status` is
valid UTF-8, a successful `UpdateLoanApplication` leaves under `id` a value
that deserializes to a record whose `Status` is `status` and whose other
fields are those of `r`. -/
theorem update_changes_only_status (stub : ChaincodeStub) (id status : String)
    (rest : List String) (data : Bytes) (r : LoanApplication)
    (hstatus : isValidUTF8 status = true)
    (hr : ∀ t ∈ r.textsOtherThanStatus, isValidUTF8 t = true)
    (hstored : stub.ledger id = some data)
    (hdata : goJson.Marshal r = Except.ok data)
    (hok : (UpdateLoanApplication goJson stub (id :: status :: rest)).1 = Except.ok none) :
    ∃ (out : Bytes) (r' : LoanApplication),
      (UpdateLoanApplication goJson stub (id :: status :: rest)).2.ledger id = some out
        ∧ (∀ dst : LoanApplication, goJson.Unmarshal out dst = (none, r'))
        ∧ r'.Status = status
        ∧ r'.ID = r.ID ∧ r'.PropertyId = r.PropertyId ∧ r'.LandId = r.LandId
        ∧ r'.PermitId = r.PermitId ∧ r'.BuyerId = r.BuyerId
        ∧ r'.AppraisalApplicationId = r.AppraisalApplicationId
        ∧ r'.SalesContractId = r.SalesContractId
        ∧ r'.PersonalInfo = r.PersonalInfo ∧ r'.FinancialInfo = r.FinancialInfo
        ∧ r'.RequestedAmount = r.RequestedAmount ∧ r'.FairMarketValue = r.FairMarketValue
        ∧ r'.ApprovedAmount = r.ApprovedAmount ∧ r'.ReviewerId = r.ReviewerId
        ∧ r'.LastModifiedDate = r.LastModifiedDate := by
  have hdata' : data = String.mk (marshalLoanApplication r) := (Except.ok.inj hdata).symm
  subst hdata'
  obtain ⟨hledger, hread⟩ := UpdateLoanApplication_goJson_stored stub id status rest r hstored hok
  have hvalid : ∀ t ∈ r.textsOtherThanStatus, textToValidUTF8 (textToValidUTF8 t) = t := by
    intro t ht
    rw [textToValidUTF8_of_valid t (hr t ht), textToValidUTF8_of_valid t (hr t ht)]
  simp only [LoanApplication.textsOtherThanStatus, List.mem_cons, List.mem_singleton,
    List.not_mem_nil, or_false, forall_eq_or_imp, forall_eq] at hvalid
  obtain ⟨h1, h2, h3, h4, h5, h6, h7, h8, h9, h10, h11, h12, h13, h14⟩ := hvalid
  refine ⟨_, _, hledger, hread, ?_, ?_, ?_, ?_, ?_, ?_, ?_, ?_, ?_, ?_, ?_, ?_, ?_, ?_, ?_⟩
  · exact textToValidUTF8_of_valid status hstatus
  · exact h1
  · exact h2
  · exact h3
  · exact h4
  · exact h5
  · exact h6
  · exact h7
  · show PersonalInfo.mk _ _ _ _ _ = r.PersonalInfo
    simp only [LoanApplication.toValidUTF8, h8, h9, h10, h11, h12]
  · rfl
  · rfl
  · rfl
  · rfl
  · exact h13
  · exact h14

/-- C3, amended, at a ledger holding the serialization of the sample
application under `LA-1`, updated to `APPROVED`. -/
theorem update_changes_only_status_witness :
    isValidUTF8 "APPROVED" = true
      ∧ (∀ t ∈ sampleApplication.textsOtherThanStatus, isValidUTF8 t = true)
      ∧ (storedStub "LA-1" (String.mk (marshalLoanApplication sampleApplication))).ledger "LA-1"
          = some (String.mk (marshalLoanApplication sampleApplication))
      ∧ goJson.Marshal sampleApplication
          = Except.ok (String.mk (marshalLoanApplication sampleApplication))
      ∧ (UpdateLoanApplication goJson
            (storedStub "LA-1" (String.mk (marshalLoanApplication sampleApplication)))
            ["LA-1", "APPROVED"]).1 = Except.ok none
      ∧ ∃ (out : Bytes) (r' : LoanApplication),
        (UpdateLoanApplication goJson
            (storedStub "LA-1" (String.mk (marshalLoanApplication sampleApplication)))
            ["LA-1", "APPROVED"]).2.ledger "LA-1" = some out
          ∧ (∀ dst : LoanApplication, goJson.Unmarshal out dst = (none, r'))
          ∧ r'.Status = "APPROVED"
          ∧ r'.ID = "LA-1" ∧ r'.PropertyId = "P-7" ∧ r'.LandId = "L-3"
          ∧ r'.PermitId = "PM-2" ∧ r'.BuyerId = "B-9"
          ∧ r'.AppraisalApplicationId = "AA-4"
          ∧ r'.SalesContractId = "SC-5"
          ∧ r'.PersonalInfo = sampleApplication.PersonalInfo
          ∧ r'.FinancialInfo = sampleApplication.FinancialInfo
          ∧ r'.RequestedAmount = 12 ∧ r'.FairMarketValue = 15
          ∧ r'.ApprovedAmount = 0 ∧ r'.ReviewerId = "R-1"
          ∧ r'.LastModifiedDate = "2017-01-01" := by
  have hok : (UpdateLoanApplication goJson
      (storedStub "LA-1" (String.mk (marshalLoanApplication sampleApplication)))
      ["LA-1", "APPROVED"]).1 = Except.ok none :=
    (UpdateLoanApplication_unmarshal_error_ignored goJson
      (storedStub "LA-1" (String.mk (marshalLoanApplication sampleApplication)))
      "LA-1" "APPROVED" [] _ _ rfl rfl rfl rfl).1
  exact ⟨by decide, by decide, rfl, rfl, hok,
    update_changes_only_status
      (storedStub "LA-1" (String.mk (marshalLoanApplication sampleApplication)))
      "LA-1" "APPROVED" [] (String.mk (marshalLoanApplication sampleApplication))
      sampleApplication (by decide) (by decide) rfl rfl hok⟩

/-- C3 as stated fails on strings that are not valid UTF-8.  On a ledger
holding the serialization of the sample application under `LA-1`, the update
to the status `"\xff"` succeeds, the status is written as the escape of
U+FFFD, and the value left deserializes to a record whose `Status` is U+FFFD,
not `"\xff"`.  On a ledger holding the
serialization of the sample application with `ReviewerId` `"\xff"`, the update
to `APPROVED` succeeds, and the value it leaves deserializes to a record whose
`ReviewerId` is U+FFFD, not that of the record. -/
theorem update_changes_only_status_counterexample :
    (goJson.Marshal sampleApplication
          = Except.ok (String.mk (marshalLoanApplication sampleApplication))
      ∧ (storedStub "LA-1" (String.mk (marshalLoanApplication sampleApplication))).ledger "LA-1"
          = some (String.mk (marshalLoanApplication sampleApplication))
      ∧ (UpdateLoanApplication goJson
            (storedStub "LA-1" (String.mk (marshalLoanApplication sampleApplication)))
            ["LA-1", "\xff"]).1 = Except.ok none
      ∧ ∃ (out : Bytes) (r' : LoanApplication),
        (UpdateLoanApplication goJson
            (storedStub "LA-1" (String.mk (marshalLoanApplication sampleApplication)))
            ["LA-1", "\xff"]).2.ledger "LA-1" = some out
          ∧ (∀ dst : LoanApplication, goJson.Unmarshal out dst = (none, r'))
          ∧ r'.Status = "\xef\xbf\xbd" ∧ r'.Status ≠ "\xff")
      ∧ marshalString "\xff" = ['"', '\\', 'u', 'f', 'f', 'f', 'd', '"']
      ∧ (goJson.Marshal { sampleApplication with ReviewerId := "\xff" }
          = Except.ok
              (String.mk (marshalLoanApplication { sampleApplication with ReviewerId := "\xff" }))
        ∧ (storedStub "LA-1"
              (String.mk
                (marshalLoanApplication { sampleApplication with ReviewerId := "\xff" }))).ledger
            "LA-1"
          = some
              (String.mk (marshalLoanApplication { sampleApplication with ReviewerId := "\xff" }))
        ∧ (UpdateLoanApplication goJson
              (storedStub "LA-1"
                (String.mk
                  (marshalLoanApplication { sampleApplication with ReviewerId := "\xff" })))
              ["LA-1", "APPROVED"]).1 = Except.ok none
        ∧ ∃ (out : Bytes) (r' : LoanApplication),
          (UpdateLoanApplication goJson
              (storedStub "LA-1"
                (String.mk
                  (marshalLoanApplication { sampleApplication with ReviewerId := "\xff" })))
              ["LA-1", "APPROVED"]).2.ledger "LA-1" = some out
            ∧ (∀ dst : LoanApplication, goJson.Unmarshal out dst = (none, r'))
            ∧ r'.ReviewerId = "\xef\xbf\xbd" ∧ r'.ReviewerId ≠ "\xff") := by
  have hok1 : (UpdateLoanApplication goJson
      (storedStub "LA-1" (String.mk (marshalLoanApplication sampleApplication)))
      ["LA-1", "\xff"]).1 = Except.ok none :=
    (UpdateLoanApplication_unmarshal_error_ignored goJson
      (storedStub "LA-1" (String.mk (marshalLoanApplication sampleApplication)))
      "LA-1" "\xff" [] _ _ rfl rfl rfl rfl).1
  have hok2 : (UpdateLoanApplication goJson
      (storedStub "LA-1"
        (String.mk (marshalLoanApplication { sampleApplication with ReviewerId := "\xff" })))
      ["LA-1", "APPROVED"]).1 = Except.ok none :=
    (UpdateLoanApplication_unmarshal_error_ignored goJson
      (storedStub "LA-1"
        (String.mk (marshalLoanApplication { sampleApplication with ReviewerId := "\xff" })))
      "LA-1" "APPROVED" [] _ _ rfl rfl rfl rfl).1
  obtain ⟨hledger1, hread1⟩ := UpdateLoanApplication_goJson_stored _ "LA-1" "\xff" []
    sampleApplication rfl hok1
  obtain ⟨hledger2, hread2⟩ := UpdateLoanApplication_goJson_stored _ "LA-1" "APPROVED" []
    { sampleApplication with ReviewerId := "\xff" } rfl hok2
  exact ⟨⟨rfl, rfl, hok1, _, _, hledger1, hread1, by decide, by decide⟩, by decide,
    ⟨rfl, rfl, hok2, _, _, hledger2, hread2, by decide, by decide⟩⟩

/-- C9: when `CreateLoanApplication` succeeds for `id`, one event has been
added to those handed to the event channel, under the name `evtSender`, and
its payload carries the tag `eventType: 'loanApplicationCreation'` and
contains `id`; when the ledger write fails, that failure is returned, no event
is added and `SetEvent` is not called. -/
theorem create_emits_one_event (stub : ChaincodeStub) (id payload : String)
    (rest : List String) :
    ((CreateLoanApplication stub (id :: payload :: rest)).1 = Except.ok none →
        (CreateLoanApplication stub (id :: payload :: rest)).2.events
            = stub.events ++ [("evtSender", creationEvent id)]
          ∧ (CreateLoanApplication stub (id :: payload :: rest)).2.calls
            = stub.calls ++
              [StubCall.PutState id payload, StubCall.SetEvent "evtSender" (creationEvent id)]
          ∧ containsSubstring (creationEvent id) "eventType: \x27loanApplicationCreation\x27"
          ∧ containsSubstring (creationEvent id) id)
      ∧ (∀ err : String, stub.putFailure id payload = some err →
          (CreateLoanApplication stub (id :: payload :: rest)).1 = Except.error err
            ∧ (CreateLoanApplication stub (id :: payload :: rest)).2.events = stub.events
            ∧ (CreateLoanApplication stub (id :: payload :: rest)).2.calls
              = stub.calls ++ [StubCall.PutState id payload]) := by
  rw [CreateLoanApplication_cons]
  constructor
  · intro hok
    refine ⟨?_, ?_, ?_, ?_⟩
    · rcases hput : stub.putFailure id payload with _ | err
      · rcases hevent : stub.eventFailure "evtSender" (creationEvent id) with _ | err
        · simp
        · simp [hput, hevent] at hok
      · simp [hput] at hok
    · rcases hput : stub.putFailure id payload with _ | err
      · rcases hevent : stub.eventFailure "evtSender" (creationEvent id) with _ | err
        · simp
        · simp [hput, hevent] at hok
      · simp [hput] at hok
    · exact ⟨("\x7b" : String).data,
        (", description:" ++ id ++ "\x27 Successfully created\x27\x7d").data, rfl⟩
    · exact ⟨("\x7beventType: \x27loanApplicationCreation\x27, description:" : String).data,
        ("\x27 Successfully created\x27\x7d" : String).data, rfl⟩
  · intro err hput
    simp [hput]

/-- C9 at the creation of `LA-1` with no failing call, and at a ledger that
rejects every write. -/
theorem create_emits_one_event_witness :
    (CreateLoanApplication emptyStub ["LA-1", "x"]).1 = Except.ok none
      ∧ (CreateLoanApplication emptyStub ["LA-1", "x"]).2.events
          = [("evtSender",
              "\x7beventType: \x27loanApplicationCreation\x27, description:LA-1\x27 Successfully created\x27\x7d")]
      ∧ (CreateLoanApplication
            { emptyStub with putFailure := fun _ _ => some "ledger is read-only" }
            ["LA-1", "x"]).2.events = [] :=
  ⟨rfl, ((create_emits_one_event emptyStub "LA-1" "x" []).1 rfl).1,
    ((create_emits_one_event
        { emptyStub with putFailure := fun _ _ => some "ledger is read-only" }
        "LA-1" "x" []).2 "ledger is read-only" rfl).2.1⟩

/-- C10: `GetLoanApplication` leaves every key of the ledger as it was, and
for every key `k` that is not the first argument, `CreateLoanApplication` and
`UpdateLoanApplication` leave the value stored under `k`, or its absence, as
it was, whether they succeed or fail; with no first argument that is every
key. -/
theorem writes_only_first_argument (json : JsonCodec) (stub : ChaincodeStub)
    (args : List String) :
    (GetLoanApplication stub args).2.ledger = stub.ledger
      ∧ ∀ k : String, args.head? ≠ some k →
        (CreateLoanApplication stub args).2.ledger k = stub.ledger k
          ∧ (UpdateLoanApplication json stub args).2.ledger k = stub.ledger k := by
  match args with
  | [] =>
    exact ⟨by rw [GetLoanApplication_short _ _ (by decide)], fun k _ =>
      ⟨by rw [CreateLoanApplication_short _ _ (by decide)],
        by rw [UpdateLoanApplication_short _ _ _ (by decide)]⟩⟩
  | [id] =>
    refine ⟨?_, fun k _ => ⟨by rw [CreateLoanApplication_short _ _ (by simp)],
      by rw [UpdateLoanApplication_short _ _ _ (by simp)]⟩⟩
    rw [GetLoanApplication_cons]
    split <;> rfl
  | id :: input :: rest =>
    refine ⟨?_, fun k hk => ?_⟩
    · rw [GetLoanApplication_cons]
      split <;> rfl
    · have hne : k ≠ id := fun h => hk (by simp [h])
      refine ⟨?_, ?_⟩
      · rw [CreateLoanApplication_cons]
        split
        · rfl
        · split <;> simp [hne]
      · rw [UpdateLoanApplication_cons]
        split
        · rfl
        · split
          · rfl
          · split
            · rfl
            · split <;> simp [hne]

/-- C10 at a ledger holding `LA-2`, the arguments `LA-1`, `APPROVED` and the
key `LA-2`. -/
theorem writes_only_first_argument_witness :
    ["LA-1", "APPROVED"].head? ≠ some "LA-2"
      ∧ (GetLoanApplication (storedStub "LA-2" "y") ["LA-1", "APPROVED"]).2.ledger
          = (storedStub "LA-2" "y").ledger
      ∧ (CreateLoanApplication (storedStub "LA-2" "y") ["LA-1", "APPROVED"]).2.ledger "LA-2"
          = some "y"
      ∧ (UpdateLoanApplication sampleCodec (storedStub "LA-2" "y")
            ["LA-1", "APPROVED"]).2.ledger "LA-2" = some "y" :=
  ⟨by decide,
    (writes_only_first_argument sampleCodec (storedStub "LA-2" "y") ["LA-1", "APPROVED"]).1,
    (writes_only_first_argument sampleCodec (storedStub "LA-2" "y") ["LA-1", "APPROVED"]).2
      "LA-2" (by decide)⟩

/-- C6: `Invoke` does not dispatch `UpdateLoanApplication`.  On a ledger
holding the sample application under `LA-1`, `Invoke` with the function name
`UpdateLoanApplication` and the arguments `LA-1`, `APPROVED` returns
`nil, nil` and the stub it was given, with the stored record and the events
untouched, whereas `UpdateLoanApplication` on the same stub and arguments
stores the record with status `APPROVED` and emits the update event. -/
theorem Invoke_update_not_dispatched :
    BasicChaincode.Invoke (storedStub "LA-1" (sampleEncode sampleApplication))
        "UpdateLoanApplication" ["LA-1", "APPROVED"]
        = (Except.ok none, storedStub "LA-1" (sampleEncode sampleApplication))
      ∧ (BasicChaincode.Invoke (storedStub "LA-1" (sampleEncode sampleApplication))
          "UpdateLoanApplication" ["LA-1", "APPROVED"]).2.ledger "LA-1"
        = some (sampleEncode sampleApplication)
      ∧ (BasicChaincode.Invoke (storedStub "LA-1" (sampleEncode sampleApplication))
          "UpdateLoanApplication" ["LA-1", "APPROVED"]).2.events = []
      ∧ (UpdateLoanApplication sampleCodec (storedStub "LA-1" (sampleEncode sampleApplication))
          ["LA-1", "APPROVED"]).1 = Except.ok none
      ∧ (UpdateLoanApplication sampleCodec (storedStub "LA-1" (sampleEncode sampleApplication))
          ["LA-1", "APPROVED"]).2.ledger "LA-1"
        = some (sampleEncode { sampleApplication with Status := "APPROVED" })
      ∧ (UpdateLoanApplication sampleCodec (storedStub "LA-1" (sampleEncode sampleApplication))
          ["LA-1", "APPROVED"]).2.events = [("evtSender", updateEvent "LA-1")]
      ∧ sampleEncode { sampleApplication with Status := "APPROVED" }
        ≠ sampleEncode sampleApplication :=
  by
  have hread : (sampleCodec.Unmarshal (sampleEncode sampleApplication) LoanApplication.zero).2
      = sampleApplication := by
    rw [sampleCodec_roundTrips sampleApplication (sampleEncode sampleApplication)
      LoanApplication.zero rfl]
  have hupdate := UpdateLoanApplication_unmarshal_error_ignored sampleCodec
    (storedStub "LA-1" (sampleEncode sampleApplication)) "LA-1" "APPROVED" []
    (sampleEncode sampleApplication)
    (sampleEncode { sampleApplication with Status := "APPROVED" })
    rfl (by rw [hread]; rfl) rfl rfl
  refine ⟨Invoke_other _ _ _ (by decide), rfl, rfl, hupdate.1, hupdate.2, rfl, fun h => ?_⟩
  have hdecode := congrArg sampleDecode h
  rw [sampleDecode_sampleEncode, sampleDecode_sampleEncode] at hdecode
  exact absurd (congrArg LoanApplication.Status (Option.some.inj hdecode)) (by decide)

/-- C7: `UpdateLoanApplication` overwrites a value it could not deserialize.
On a ledger holding under `LA-1` bytes that the codec rejects, the update to
`APPROVED` returns no error and replaces the stored bytes by the
serialization of the zero record with status `APPROVED`. -/
theorem update_overwrites_undecodable :
    (sampleCodec.Unmarshal "not a loan application" LoanApplication.zero).1
        = some "cannot decode a loan application"
      ∧ (UpdateLoanApplication sampleCodec (storedStub "LA-1" "not a loan application")
          ["LA-1", "APPROVED"]).1 = Except.ok none
      ∧ (UpdateLoanApplication sampleCodec (storedStub "LA-1" "not a loan application")
          ["LA-1", "APPROVED"]).2.ledger "LA-1"
        = some (sampleEncode { LoanApplication.zero with Status := "APPROVED" })
      ∧ (UpdateLoanApplication sampleCodec (storedStub "LA-1" "not a loan application")
          ["LA-1", "APPROVED"]).2.ledger "LA-1"
        ≠ (storedStub "LA-1" "not a loan application").ledger "LA-1" :=
  ⟨rfl,
    (UpdateLoanApplication_unmarshal_error_ignored sampleCodec
      (storedStub "LA-1" "not a loan application") "LA-1" "APPROVED" [] "not a loan application"
      (sampleEncode { LoanApplication.zero with Status := "APPROVED" }) rfl rfl rfl rfl).1,
    (UpdateLoanApplication_unmarshal_error_ignored sampleCodec
      (storedStub "LA-1" "not a loan application") "LA-1" "APPROVED" [] "not a loan application"
      (sampleEncode { LoanApplication.zero with Status := "APPROVED" }) rfl rfl rfl rfl).2,
    by decide⟩

end BasicGateway
